import Mathlib

/-!
# Verification of the psyche spiking-neural-network core

A shallow embedding of the `psyche-core` brain simulation engine
(`src/psyche-core/src/brain.rs` and its companions), with theorems settling
the frozen claims about it.

Modelling conventions:
* the Rust scalar type (`f64`) is modelled by `ℚ`; square roots (used only by
  `Position::distance` / `Position::magnitude`) are modelled by `ratSqrt`,
  which is exact whenever the radicand is a perfect square (all concrete
  inputs in this file are chosen so);
* machine identifiers (uuid v4, globally unique) are modelled by naturals
  drawn from a monotone fresh-id counter threaded through the operations that
  create entities;
* `rand::thread_rng` is modelled by an explicit `Rng` value carrying streams
  of draws; `gen_range(lo, hi)` panics when `lo ≥ hi` (as the `rand` crate
  asserts), which is modelled by an `Option`/`PResult.panic` outcome;
* Rust functions that can panic return `PResult` (or `Option`): `.panic`
  models a Rust panic, `.fail e` models `Err(e)`, `.ok` models `Ok`.
-/

/-- Largest `m ≤ k` with `m * m ≤ n` (structural, so that concrete inputs
reduce by `decide`). -/
def natSqrtAux (n : ℕ) : ℕ → ℕ
  | 0 => 0
  | k + 1 => if (k + 1) * (k + 1) ≤ n then k + 1 else natSqrtAux n k

/-- Integer square root, structural counterpart of `Nat.sqrt`. -/
def natSqrt (n : ℕ) : ℕ :=
  natSqrtAux n n

/-- Rational square root: exact whenever numerator and denominator are perfect
squares (`Position::distance` in the source computes an `f64` square root;
every concrete position in this file keeps the radicand a perfect square). -/
def ratSqrt (q : ℚ) : ℚ :=
  (natSqrt q.num.toNat : ℚ) / (natSqrt q.den : ℚ)

/-- 3D point with scalar components (`Position` in `neuron.rs`). -/
structure Position where
  x : ℚ
  y : ℚ
  z : ℚ
deriving DecidableEq

def Position.magnitude_sqr (p : Position) : ℚ :=
  p.x * p.x + p.y * p.y + p.z * p.z

def Position.magnitude (p : Position) : ℚ :=
  ratSqrt p.magnitude_sqr

def Position.distance_sqr (a b : Position) : ℚ :=
  (a.x - b.x) * (a.x - b.x) + (a.y - b.y) * (a.y - b.y) + (a.z - b.z) * (a.z - b.z)

def Position.distance (a b : Position) : ℚ :=
  ratSqrt (a.distance_sqr b)

/-- An impulse in flight along a synapse (`Impulse` as used by `brain.rs`:
a `potential` and a remaining-travel `timeout`). -/
structure Impulse where
  potential : ℚ
  timeout : ℚ
deriving DecidableEq

/-- Directed synapse (`Synapse` in `neuron.rs`). -/
structure Synapse where
  source : ℕ
  target : ℕ
  distance : ℚ
  receptors : ℚ
  impulses : List Impulse
  inactivity : ℚ
deriving DecidableEq

/-- Modelled from the spec: the `Neuron` type that `brain.rs` relies on.  The
in-tree `neuron.rs` is an older variant (it stores `input_impulses` and lacks
`potential()`, `fire()`, `push_potential()` and `process_potential()`, all of
which `brain.rs` calls); the spec (§3.3, §4.2, §4.3) describes the neuron as
carrying a scalar accumulated potential. -/
structure Neuron where
  id : ℕ
  owner_id : ℕ
  position : Position
  potential : ℚ
deriving DecidableEq

/-- `Neuron::new(owner_id, position)` plus the fresh id draw: zero potential. -/
def Neuron.new (id owner : ℕ) (pos : Position) : Neuron :=
  ⟨id, owner, pos, 0⟩

/-- Modelled from the spec: firing "resets p := 0" (§4.3 Phase A);
`kill_impulses` likewise zeroes every neuron potential (§4.2). -/
def Neuron.fire (n : Neuron) : Neuron :=
  { n with potential := 0 }

/-- Modelled from the spec: `sensor_trigger_impulse` "adds `potential` to the
sensor's target neuron's accumulated potential" (§4.2); impulse delivery adds
the delivered potential (§4.3 Phase B). -/
def Neuron.push_potential (n : Neuron) (p : ℚ) : Neuron :=
  { n with potential := n.potential + p }

/-- Modelled from the spec (§4.3 Phase A step 3): "Move the neuron's potential
toward zero by at most `d` in magnitude (saturate at zero, preserving sign)." -/
def Neuron.process_potential (n : Neuron) (d : ℚ) : Neuron :=
  if n.potential > 0 then { n with potential := max (n.potential - d) 0 }
  else { n with potential := min (n.potential + d) 0 }

/-- External-write port (`Sensor` in `sensor.rs`). -/
structure Sensor where
  id : ℕ
  target : ℕ
deriving DecidableEq

/-- External-read port (`Effector` in `effector.rs`). -/
structure Effector where
  id : ℕ
  source : ℕ
  potential : ℚ
deriving DecidableEq

/-- Rust `Range<Scalar>`; `end` is a Lean keyword, so the upper bound is named
`stop`. -/
structure RangeQ where
  start : ℚ
  stop : ℚ
deriving DecidableEq

/-- `Config` as consumed by `brain.rs` (the in-tree `config.rs` is an older
variant storing `default_receptors` as a tuple; `brain.rs` reads
`default_receptors.start` / `.end`, a `Range`). -/
structure Config where
  propagation_speed : ℚ
  neuron_potential_decay : ℚ
  action_potential_treshold : ℚ
  receptors_excitation : ℚ
  receptors_inhibition : ℚ
  default_receptors : RangeQ
  synapse_inactivity_time : ℚ
  synapse_reconnection_range : Option ℚ
  synapse_overdose_receptors : Option ℚ
  synapse_propagation_decay : ℚ
  synapse_new_connection_receptors : Option ℚ
deriving DecidableEq

/-- The owning container (`Brain` in `brain.rs`). -/
structure Brain where
  id : ℕ
  neurons : List Neuron
  synapses : List Synapse
  sensors : List Sensor
  effectors : List Effector
  config : Config
  new_connections_accum : ℚ
deriving DecidableEq

/-- Error kinds (`Error` in `error.rs`; the `Simple`/IO variant is unused by
the modelled operations). -/
inductive Err where
  | NeuronDoesNotExists (id : ℕ)
  | BindingNeuronToItSelf (id : ℕ)
  | UnbindingNeuronFromItSelf (id : ℕ)
  | SensorDoesNotExists (id : ℕ)
  | EffectorDoesNotExists (id : ℕ)
  | BindingNeuronToSensor (n s : ℕ)
  | BindingEffectorToNeuron (e n : ℕ)
  | NeuronIsAlreadyConnectedToSensor (n s : ℕ)
  | NeuronIsAlreadyConnectedToEffector (n e : ℕ)
deriving DecidableEq

/-- Outcome of a Rust call: `Ok`, `Err`, or a panic/abort. -/
inductive PResult (α : Type) where
  | ok (a : α) : PResult α
  | fail (e : Err) : PResult α
  | panic : PResult α
deriving DecidableEq

/-- Pseudo-randomness as explicit draw streams (the source uses
`rand::thread_rng`; stochasticity is a capability, per spec §9).  `dirs`
abstracts the unit direction the builders derive from two angle draws via
`cos`/`sin` (transcendental, hence drawn directly here). -/
structure Rng where
  nats : ℕ → ℕ
  rats : ℕ → ℚ
  dirs : ℕ → Position
  natIdx : ℕ
  ratIdx : ℕ
  dirIdx : ℕ

/-- The value of the next integer draw from `gen_range(lo, hi)` (callers
guarantee `lo < hi`; the draw lands in `[lo, hi)`). -/
def Rng.natDrawVal (rng : Rng) (lo hi : ℕ) : ℕ :=
  lo + rng.nats rng.natIdx % (hi - lo)

def Rng.nextNat (rng : Rng) : Rng :=
  { rng with natIdx := rng.natIdx + 1 }

/-- `gen_range(lo, hi)` on integers: the `rand` crate asserts `lo < hi` and
panics otherwise (modelled as `none`). -/
def Rng.genNat (rng : Rng) (lo hi : ℕ) : Option (ℕ × Rng) :=
  if lo < hi then some (rng.natDrawVal lo hi, rng.nextNat) else none

/-- The value of the next scalar draw from `gen_range(lo, hi)`: the raw draw
clamped into `[lo, hi)` (callers guarantee `lo < hi`). -/
def Rng.ratDrawVal (rng : Rng) (lo hi : ℚ) : ℚ :=
  let x := rng.rats rng.ratIdx
  if lo ≤ x ∧ x < hi then x else lo

def Rng.nextRat (rng : Rng) : Rng :=
  { rng with ratIdx := rng.ratIdx + 1 }

/-- `gen_range(lo, hi)` on scalars: panics (asserts) when `lo ≥ hi`. -/
def Rng.genRat (rng : Rng) (lo hi : ℚ) : Option (ℚ × Rng) :=
  if lo < hi then some (rng.ratDrawVal lo hi, rng.nextRat) else none

/-- Draw an abstract unit direction (stands for the `phi`/`theta` angle pair
the builders draw; those `gen_range` calls have constant nonempty ranges and
never panic). -/
def Rng.genDir (rng : Rng) : Position × Rng :=
  (rng.dirs rng.dirIdx, { rng with dirIdx := rng.dirIdx + 1 })

/-- `Iterator::position(p)`: index of the first element satisfying `p`. -/
def listPosition {α : Type} (p : α → Bool) : List α → Option ℕ
  | [] => none
  | a :: l => if p a then some 0 else (listPosition p l).map (· + 1)

/-- `Vec::swap_remove(i)`: replace element `i` with the last element and pop
(callers in the modelled paths guarantee `i < l.length`). -/
def listSwapRemove {α : Type} (l : List α) (i : ℕ) : List α :=
  match l.getLast? with
  | none => l
  | some x => (l.set i x).dropLast

theorem listPosition_lt_length {α : Type} {p : α → Bool} :
    ∀ {l : List α} {i : ℕ}, listPosition p l = some i → i < l.length := by
  intro l
  induction l with
  | nil => intro i h; simp [listPosition] at h
  | cons a l ih =>
    intro i h
    simp only [listPosition] at h
    by_cases hpa : p a
    · simp [hpa] at h
      simp only [List.length_cons]
      omega
    · simp [hpa] at h
      obtain ⟨j, hj, rfl⟩ := h
      have := ih hj
      simp only [List.length_cons]
      omega

theorem listSwapRemove_length {α : Type} {l : List α} (h : l ≠ []) (i : ℕ) :
    (listSwapRemove l i).length = l.length - 1 := by
  unfold listSwapRemove
  match hl : l.getLast? with
  | none => exact absurd (List.getLast?_eq_none_iff.mp hl) h
  | some x => simp [List.length_dropLast, List.length_set]

namespace Brain

/-- `Brain::neuron(id)`: first neuron with the given id. -/
def neuron (b : Brain) (id : ℕ) : Option Neuron :=
  b.neurons.find? (fun n => n.id = id)

/-- `Brain::are_neurons_connected(from, to)`. -/
def are_neurons_connected (b : Brain) (f t : ℕ) : Bool :=
  b.synapses.any (fun s => s.source = f && s.target = t)

/-- `Brain::create_neuron(position)`: always succeeds, zero potential; `fresh`
models the uuid draw. -/
def create_neuron (b : Brain) (pos : Position) (fresh : ℕ) : ℕ × Brain × ℕ :=
  (fresh, { b with neurons := b.neurons ++ [Neuron.new fresh b.id pos] }, fresh + 1)

/-- The `while let Some(index) = self.synapses.iter().position(...)` loop in
`Brain::kill_neuron`: this one re-evaluates `position` each iteration, so it
removes every incident synapse and terminates. -/
def drainIncident (id : ℕ) (l : List Synapse) : List Synapse :=
  match h : listPosition (fun s => s.source = id || s.target = id) l with
  | none => l
  | some i =>
    have : (listSwapRemove l i).length < l.length := by
      have hi : i < l.length := listPosition_lt_length h
      have hne : l ≠ [] := by
        intro hnil; rw [hnil] at hi; simp at hi
      rw [listSwapRemove_length hne]
      omega
    drainIncident id (listSwapRemove l i)
termination_by l.length

/-- `Brain::kill_neuron(id)` (brain.rs:523-555).  The synapse-removal loop is
sound, but the sensor and effector removal loops read
`while let Some(index) = index` where `index` is the `Option` computed once
before the loop: the scrutinee never changes, so a `Some` match keeps
`swap_remove`ing at the stale index until the index is out of bounds and the
call panics.  A panic therefore occurs exactly when some sensor targets `id`
or some effector sources `id`. -/
def kill_neuron (b : Brain) (id : ℕ) : PResult Brain :=
  match listPosition (fun n => n.id = id) b.neurons with
  | none => .fail (.NeuronDoesNotExists id)
  | some i =>
    let neurons := listSwapRemove b.neurons i
    let synapses := drainIncident id b.synapses
    match listPosition (fun s => s.target = id) b.sensors with
    | some _ => .panic
    | none =>
      match listPosition (fun e => e.source = id) b.effectors with
      | some _ => .panic
      | none => .ok { b with neurons := neurons, synapses := synapses }

/-- `Brain::kill_impulses` (brain.rs:632-642).  Neuron potentials are zeroed
(`neuron.fire()`) and effector potentials are zeroed, but the synapse loop
body is `synapse.impulses.len();` — it computes the length and discards it,
so the in-flight impulse lists are left untouched. -/
def kill_impulses (b : Brain) : Brain :=
  { b with
    neurons := b.neurons.map Neuron.fire,
    effectors := b.effectors.map (fun e => { e with potential := 0 }) }

/-- `Brain::create_sensor(target)` (brain.rs:397-422): rejects a target that
already has a sensor or an effector; it never checks that the target neuron
exists.  `fresh` models the uuid draw for the new sensor id. -/
def create_sensor (b : Brain) (target : ℕ) (fresh : ℕ) : PResult (ℕ × Brain × ℕ) :=
  match b.sensors.find? (fun s => s.target = target) with
  | some sensor => .fail (.NeuronIsAlreadyConnectedToSensor target sensor.id)
  | none =>
    match b.effectors.find? (fun e => e.source = target) with
    | some eff => .fail (.NeuronIsAlreadyConnectedToEffector target eff.id)
    | none =>
      .ok (fresh, { b with sensors := b.sensors ++ [⟨fresh, target⟩] }, fresh + 1)

/-- `Brain::create_effector(source)` (brain.rs:461-487): rejects a source that
already has a sensor or an effector; it never checks that the source neuron
exists. -/
def create_effector (b : Brain) (source : ℕ) (fresh : ℕ) : PResult (ℕ × Brain × ℕ) :=
  match b.sensors.find? (fun s => s.target = source) with
  | some sensor => .fail (.NeuronIsAlreadyConnectedToSensor source sensor.id)
  | none =>
    match b.effectors.find? (fun e => e.source = source) with
    | some eff => .fail (.NeuronIsAlreadyConnectedToEffector source eff.id)
    | none =>
      .ok (fresh, { b with effectors := b.effectors ++ [⟨fresh, source, 0⟩] }, fresh + 1)

/-- `Brain::bind_neurons(from, to)` (brain.rs:557-600).  Precondition order:
self-loop, missing `from`, missing `to`, already-connected (idempotent `Ok
(None)`), sensor at target, effector at source; then the receptors draw
(`gen_range` panics on an empty `default_receptors` range) and the insert. -/
def bind_neurons (b : Brain) (f t : ℕ) (rng : Rng) : PResult (Option ℚ × Brain × Rng) :=
  if f = t then .fail (.BindingNeuronToItSelf f)
  else
    match b.neuron f with
    | none => .fail (.NeuronDoesNotExists f)
    | some source =>
      match b.neuron t with
      | none => .fail (.NeuronDoesNotExists t)
      | some target =>
        if b.are_neurons_connected f t then .ok (none, b, rng)
        else
          match b.sensors.find? (fun s => s.target = t) with
          | some sensor => .fail (.BindingNeuronToSensor t sensor.id)
          | none =>
            match b.effectors.find? (fun e => e.source = f) with
            | some eff => .fail (.BindingEffectorToNeuron eff.id f)
            | none =>
              let distance := source.position.distance target.position
              match rng.genRat b.config.default_receptors.start
                  b.config.default_receptors.stop with
              | none => .panic
              | some (receptors, rng') =>
                .ok (some receptors,
                  { b with synapses :=
                      b.synapses ++ [⟨f, t, distance, receptors, [], 0⟩] },
                  rng')

/-- The filtered list built inside `Brain::select_neuron` (brain.rs:892-915):
keep neurons that are not a sensor target and, when
`synapse_reconnection_range = Some(srr)`, whose distance from `position` is
not `< srr` (the source rejects on `distance < srr`). -/
def select_candidates (b : Brain) (position : Position) : List ℕ :=
  b.neurons.filterMap (fun n =>
    if b.sensors.any (fun s => s.target = n.id) then none
    else
      match b.config.synapse_reconnection_range with
      | some srr => if n.position.distance position < srr then none else some n.id
      | none => some n.id)

/-- `Brain::select_neuron(position)`: uniformly random member of the filtered
list, or `None` when it is empty. -/
def select_neuron (b : Brain) (position : Position) (rng : Rng) : Option ℕ × Rng :=
  let filtered := select_candidates b position
  if filtered.isEmpty then (none, rng)
  else
    match rng.genNat 0 filtered.length with
    | some (i, rng') => (some (filtered.getD (i % filtered.length) 0), rng')
    | none => (none, rng)

end Brain

/-- Statement helper: `id` is some sensor's target. -/
def isSensorTarget (b : Brain) (id : ℕ) : Bool :=
  b.sensors.any (fun s => s.target = id)

/-- Statement helper: `id` is some effector's source. -/
def isEffectorSource (b : Brain) (id : ℕ) : Bool :=
  b.effectors.any (fun e => e.source = id)

/-- Statement helper: a neuron with this id is present. -/
def hasNeuron (b : Brain) (id : ℕ) : Bool :=
  b.neurons.any (fun n => n.id = id)

/-! ## Concrete inputs used by counterexamples and witnesses -/

/-- `Config::default()` (numerals as exact rationals). -/
def cfg0 : Config :=
  ⟨1, 1, 1, 1, 1/20, ⟨1/2, 3/2⟩, 1/20, none, none, 0, none⟩

def p000 : Position := ⟨0, 0, 0⟩

/-- A deterministic draw source: every raw draw is zero. -/
def rng0 : Rng :=
  ⟨fun _ => 0, fun _ => 0, fun _ => p000, 0, 0, 0⟩

/-- Neuron 1 carries sensor 2: the failing input for `kill_neuron`. -/
def brainC1 : Brain :=
  ⟨0, [⟨1, 0, p000, 0⟩], [], [⟨2, 1⟩], [], cfg0, 0⟩

/-- One in-flight impulse, nonzero neuron and effector potentials: the
failing input for `kill_impulses`. -/
def brainC2 : Brain :=
  ⟨0, [⟨1, 0, p000, 5⟩, ⟨2, 0, p000, 0⟩],
    [⟨1, 2, 0, 1, [⟨1, 2⟩], 0⟩], [], [⟨3, 1, 3⟩], cfg0, 0⟩

/-- Two unconnected neurons at distance 5: input for the `bind_neurons`
witness. -/
def brainC5 : Brain :=
  ⟨0, [⟨1, 0, p000, 0⟩, ⟨2, 0, ⟨3, 4, 0⟩, 0⟩], [], [], [], cfg0, 0⟩

/-- The empty brain: input for the `create_sensor`/`create_effector`
counterexample (neuron 5 does not exist). -/
def brainEmpty : Brain :=
  ⟨0, [], [], [], [], cfg0, 0⟩

/-- A reconnection range of 5 with one neuron at distance exactly 5 from the
origin: the boundary input for `select_neuron`. -/
def brainC7 : Brain :=
  ⟨0, [⟨1, 0, ⟨3, 4, 0⟩, 0⟩], [], [], [],
    { cfg0 with synapse_reconnection_range := some 5 }, 0⟩

/-- The candidate set as the spec and claim C7 word it: neurons that are not
a sensor target and, when a reconnection range `r` is set, lie *strictly
outside* radius `r` (so distance exactly `r` is excluded).  Kept separate
from `Brain.select_candidates`, which transcribes the source's predicate
(rejection on `distance < r`). -/
def spec_select_candidates (b : Brain) (position : Position) : List ℕ :=
  b.neurons.filterMap (fun n =>
    if b.sensors.any (fun s => s.target = n.id) then none
    else
      match b.config.synapse_reconnection_range with
      | some srr => if n.position.distance position > srr then some n.id else none
      | none => some n.id)

section Sanity

example : ratSqrt 25 = 5 := by norm_num [ratSqrt, natSqrt, natSqrtAux]

example : listSwapRemove [1, 2, 3, 4] 1 = [1, 4, 3] := by decide

example : listPosition (fun n => n = 3) [5, 3, 7] = some 1 := by decide

end Sanity

/-! ## The tick engine, phase A (potential summation and firing) -/

/-- The `neurons_triggering` list collected in `Brain::process`
(brain.rs:665-681): the id and *pre-decay snapshot* potential of every neuron
at or above the firing threshold. -/
def triggeringOf (cfg : Config) (neurons : List Neuron) : List (ℕ × ℚ) :=
  neurons.filterMap (fun n =>
    if n.potential ≥ cfg.action_potential_treshold then some (n.id, n.potential)
    else none)

/-- The neuron updates of the same loop: fire (reset to zero) when at or above
threshold, then decay toward zero by `Δt · neuron_potential_decay`. -/
def neuronsAfterSummation (cfg : Config) (dt : ℚ) (neurons : List Neuron) :
    List Neuron :=
  neurons.map (fun n =>
    let n' := if n.potential ≥ cfg.action_potential_treshold then n.fire else n
    n'.process_potential (dt * cfg.neuron_potential_decay))

/-- One iteration of the `for (id, p) in neurons_triggering` loop
(brain.rs:682-705): count the outgoing synapses with `inactivity ≤ 0` (the
overdose cap is *not* part of this count), and if the count is positive give
each of them `inactivity := synapse_inactivity_time` and — only when its
receptors are under the overdose cap — a new impulse with potential `p/count`
and timeout equal to its distance. -/
def liveOutgoing (id : ℕ) (s : Synapse) : Bool :=
  decide (s.inactivity ≤ 0) && decide (s.source = id)

/-- What a live outgoing synapse receives inside the loop body: inactivity is
always reset to `synapse_inactivity_time`; the impulse (potential `p`, timeout
= distance) is pushed only when the receptors are under the overdose cap. -/
def fireTransform (cfg : Config) (p : ℚ) (s : Synapse) : Synapse :=
  let under : Bool :=
    match cfg.synapse_overdose_receptors with
    | some o => decide (s.receptors < o)
    | none => true
  { s with
    impulses := if under then s.impulses ++ [⟨p, s.distance⟩] else s.impulses,
    inactivity := cfg.synapse_inactivity_time }

def fireOnto (cfg : Config) (synapses : List Synapse) (idp : ℕ × ℚ) :
    List Synapse :=
  let count := (synapses.filter (liveOutgoing idp.1)).length
  if 0 < count then
    let p := idp.2 / (count : ℚ)
    synapses.map (fun s => if liveOutgoing idp.1 s then fireTransform cfg p s else s)
  else synapses

/-- The potential summation phase of `Brain::process` (brain.rs:662-706). -/
def Brain.potentialSummationPhase (b : Brain) (dt : ℚ) : Brain :=
  { b with
    neurons := neuronsAfterSummation b.config dt b.neurons,
    synapses := (triggeringOf b.config b.neurons).foldl (fireOnto b.config)
      b.synapses }

/-! ## The tick engine, phases B-F, and `process` -/

/-- The per-synapse body of the impulse propagation phase (brain.rs:713-742):
decay every impulse by `d` and advance it by `s`; count the impulses whose
new timeout is `≤ 0` (`estimated_count`); bump receptors by that count times
`r`; *only when the count is positive*, drop impulses with `potential ≤ 0`,
retain those with `timeout > 0` and turn the rest into `(target, potential)`
deliveries; finally decrement inactivity by `Δt`, saturating at zero. -/
def propagateSynapse (dt s r d : ℚ) (syn : Synapse) :
    Synapse × List (ℕ × ℚ) :=
  let moved := syn.impulses.map (fun imp =>
    (⟨imp.potential - d, imp.timeout - s⟩ : Impulse))
  let estimated := (moved.filter (fun imp => decide (imp.timeout ≤ 0))).length
  let receptors := syn.receptors + (estimated : ℚ) * r
  let impulses :=
    if 0 < estimated then
      moved.filterMap (fun imp =>
        if imp.potential ≤ 0 then none
        else if imp.timeout > 0 then some imp
        else none)
    else moved
  let deliveries :=
    if 0 < estimated then
      moved.filterMap (fun imp =>
        if imp.potential ≤ 0 then none
        else if imp.timeout > 0 then none
        else some (syn.target, imp.potential))
    else []
  ({ syn with
      impulses := impulses
      receptors := receptors
      inactivity := max (syn.inactivity - dt) 0 },
    deliveries)

/-- The impulse propagation phase of `Brain::process` (brain.rs:708-753):
propagate every synapse, then add each delivery to the matching neuron. -/
def Brain.propagationPhase (b : Brain) (dt : ℚ) : Brain :=
  let s := b.config.propagation_speed * dt
  let r := b.config.receptors_excitation * dt
  let d := b.config.synapse_propagation_decay * s
  let results := b.synapses.map (propagateSynapse dt s r d)
  let synapses := results.map Prod.fst
  let deliveries := (results.map Prod.snd).flatten
  let neurons := b.neurons.map (fun n =>
    deliveries.foldl (fun m idp =>
      if idp.1 = n.id then m.push_potential idp.2 else m) n)
  { b with neurons := neurons, synapses := synapses }

/-- One iteration of the reconnection loop closing the inhibition phase
(brain.rs:795-797): `self.bind_neurons(from, to)?` — success continues with
the new brain, an error propagates (and a panicking receptors draw aborts). -/
def reconnectStep (acc : PResult (Brain × Rng)) (ft : ℕ × ℕ) :
    PResult (Brain × Rng) :=
  match acc with
  | PResult.ok (br, rng2) =>
    match Brain.bind_neurons br ft.1 ft.2 rng2 with
    | .ok (_, br', rng3) => .ok (br', rng3)
    | .fail e => .fail e
    | .panic => .panic
  | other => other

/-- The inhibition and reconnection phase of `Brain::process`
(brain.rs:755-798): skipped unless `receptors_inhibition > 0`; every synapse
loses `receptors_inhibition · Δt` receptors; dying synapses (receptors ≤ 0)
are collected by ascending index; for each, a reconnection `(source,
candidate)` is attempted via `select_neuron` (discarded when no candidate,
the candidate equals the source, or either direction is already connected);
the dying synapses are `swap_remove`d in reverse index order and the accepted
reconnections are bound (`bind_neurons` errors propagate, `?`). -/
def Brain.inhibitionPhase (b : Brain) (dt : ℚ) (rng : Rng) :
    PResult (Brain × Rng) :=
  if 0 < b.config.receptors_inhibition then
    let r := b.config.receptors_inhibition * dt
    let synapses1 := b.synapses.map (fun s =>
      { s with receptors := s.receptors - r })
    let toRemove := synapses1.enum.filterMap (fun is =>
      if is.2.receptors ≤ 0 then some is.1 else none)
    let reconnects := toRemove.foldl (fun (acc : List (ℕ × ℕ) × Rng) index =>
      match synapses1[index]? with
      | none => acc
      | some s =>
        if s.receptors ≤ 0 then
          match b.neurons.find? (fun n => n.id = s.source) with
          | some neuron =>
            let sel := Brain.select_neuron { b with synapses := synapses1 }
              neuron.position acc.2
            match sel.1 with
            | some id =>
              if s.source ≠ id ∧
                  ¬({ b with synapses := synapses1 } : Brain).are_neurons_connected s.source id ∧
                  ¬({ b with synapses := synapses1 } : Brain).are_neurons_connected id s.source
              then (acc.1 ++ [(s.source, id)], sel.2) else (acc.1, sel.2)
            | none => (acc.1, sel.2)
          | none => acc
        else acc) ([], rng)
    let synapses2 := toRemove.reverse.foldl listSwapRemove synapses1
    reconnects.1.foldl reconnectStep
      (.ok ({ b with synapses := synapses2 }, reconnects.2))
  else .ok (b, rng)

/-- One removal of the dead-neuron phase: `swap_remove` the neuron at
`index`, then run the three constant-scrutinee `while let Some(index) =
index` clean-up loops, which panic whenever their initial `position` search
found anything (same bug as in `kill_neuron`). -/
def orphanStep (acc : PResult Brain) (index : ℕ) : PResult Brain :=
  match acc with
  | PResult.ok br =>
    match br.neurons[index]? with
    | none => .panic
    | some n =>
      if br.synapses.any (fun s => s.source = n.id || s.target = n.id) then
        .panic
      else if br.sensors.any (fun s => s.target = n.id) then .panic
      else if br.effectors.any (fun e => e.source = n.id) then .panic
      else .ok { br with neurons := listSwapRemove br.neurons index }
  | other => other

/-- The dead-neuron removal phase of `Brain::process` (brain.rs:800-843):
neurons with no incident synapse are collected by ascending index and
`swap_remove`d in reverse order; for each removed id, the three clean-up
loops are the same constant-scrutinee `while let Some(index) = index` as in
`kill_neuron`, so any remaining incident synapse, sensor, or effector makes
the call panic (for synapses the position is always `None` here). -/
def Brain.orphanPhase (b : Brain) : PResult Brain :=
  let toRemove := b.neurons.enum.filterMap (fun inr =>
    if b.synapses.any (fun s => s.source = inr.2.id || s.target = inr.2.id)
    then none else some inr.1)
  toRemove.reverse.foldl orphanStep (.ok b)

/-- The effector publication phase of `Brain::process` (brain.rs:845-859):
each effector whose source neuron is found latches that neuron's current
potential. -/
def Brain.effectorPhase (b : Brain) : Brain :=
  { b with effectors := b.effectors.map (fun e =>
      match b.neurons.find? (fun n => n.id = e.source) with
      | some n => { e with potential := n.potential }
      | none => e) }

/-- One iteration of the budding bind loop (brain.rs:882-886):
`if let Some(receptors) = self.bind_neurons(from, to)? {
self.synapses[index].receptors -= receptors; }` — indexing panics if the
index is out of bounds (it never is: binds only append). -/
def buddingStep (acc : PResult (Brain × Rng)) (x : ℕ × ℕ × ℕ) :
    PResult (Brain × Rng) :=
  match acc with
  | PResult.ok (br, rng2) =>
    match Brain.bind_neurons br x.2.1 x.2.2 rng2 with
    | .ok (some receptors, br', rng3) =>
      match br'.synapses[x.1]? with
      | some s0 =>
        .ok ({ br' with synapses := br'.synapses.set x.1 { s0 with receptors := s0.receptors - receptors } }, rng3)
      | none => .panic
    | .ok (none, br', rng3) => .ok (br', rng3)
    | .fail e => .fail e
    | .panic => .panic
  | other => other

/-- The budding phase of `Brain::process` (brain.rs:861-887): when
`synapse_new_connection_receptors = Some r`, every synapse with receptors
`> r` attempts a new connection from its source to a `select_neuron`
candidate (same discard conditions as the inhibition phase); accepted
triples are processed in reverse order: each successful bind subtracts the
new synapse's receptors from the parent synapse at its index. -/
def Brain.buddingPhase (b : Brain) (rng : Rng) : PResult (Brain × Rng) :=
  match b.config.synapse_new_connection_receptors with
  | none => .ok (b, rng)
  | some r =>
    let toConnect := b.synapses.enum.foldl
      (fun (acc : List (ℕ × ℕ × ℕ) × Rng) is =>
        if r < is.2.receptors then
          match b.neuron is.2.source with
          | some neuron =>
            let sel := b.select_neuron neuron.position acc.2
            match sel.1 with
            | some id =>
              if is.2.source ≠ id ∧ ¬b.are_neurons_connected is.2.source id ∧
                  ¬b.are_neurons_connected id is.2.source
              then (acc.1 ++ [(is.1, is.2.source, id)], sel.2)
              else (acc.1, sel.2)
            | none => (acc.1, sel.2)
          | none => acc
        else acc) ([], rng)
    toConnect.1.reverse.foldl buddingStep (.ok (b, toConnect.2))

/-- `Brain::process(Δt)` (brain.rs:644-890): immediate success on an empty
neuron list; otherwise the phases run in order — potential summation and
firing, impulse propagation, inhibition/reconnection, dead-neuron removal,
effector publication, budding — with `bind_neurons` errors propagating. -/
def Brain.process (b : Brain) (dt : ℚ) (rng : Rng) : PResult (Brain × Rng) :=
  if b.neurons = [] then .ok (b, rng)
  else
    let b1 := b.potentialSummationPhase dt
    let b2 := b1.propagationPhase dt
    match b2.inhibitionPhase dt rng with
    | .ok (b3, rng3) =>
      match b3.orphanPhase with
      | .ok b4 => (b4.effectorPhase).buddingPhase rng3
      | .fail e => .fail e
      | .panic => .panic
    | .fail e => .fail e
    | .panic => .panic

/-- The C4 invariant: every in-flight impulse satisfies
`0 < timeout ≤ distance`. -/
def ImpulsesOk (b : Brain) : Prop :=
  ∀ s ∈ b.synapses, ∀ imp ∈ s.impulses,
    0 < imp.timeout ∧ imp.timeout ≤ s.distance

/-- Per-synapse timeout bound (used as the pre-`process` hypothesis). -/
def SynBound (s : Synapse) : Prop :=
  ∀ imp ∈ s.impulses, imp.timeout ≤ s.distance

/-- Config for the C4 counterexample: no inhibition, steep in-flight decay,
unreachable firing threshold. -/
def cfgC4 : Config :=
  { cfg0 with
    receptors_inhibition := 0
    synapse_propagation_decay := 2
    action_potential_treshold := 100 }

/-- One synapse of distance 10 carrying the impulse ⟨1, 10⟩: after one tick
the impulse decays to potential −1 but no impulse arrives on the synapse, so
the decayed impulse survives `process`. -/
def brainC4 : Brain :=
  ⟨0, [⟨1, 0, p000, 0⟩, ⟨2, 0, p000, 0⟩],
    [⟨1, 2, 10, 1, [⟨1, 10⟩], 0⟩], [], [], cfgC4, 0⟩

/-- Config for the C3 counterexample: overdose cap 3, inactivity cooldown 7. -/
def cfgC3 : Config :=
  { cfg0 with synapse_overdose_receptors := some 3, synapse_inactivity_time := 7 }

/-- A firing neuron (potential 2 ≥ threshold 1) with two live outgoing
synapses, one under the overdose cap (receptors 0 < 3) and one over it
(receptors 5 ≥ 3). -/
def brainC3 : Brain :=
  ⟨0, [⟨1, 0, p000, 2⟩, ⟨2, 0, p000, 0⟩],
    [⟨1, 2, 4, 0, [], 0⟩, ⟨1, 2, 4, 5, [], 0⟩], [], [], cfgC3, 0⟩

/-! ## `Brain::duplicate` -/

/-- `Brain::duplicate` (brain.rs:119-191): fresh brain id, fresh neuron ids
(same positions, zero potential via `Neuron::new`); each synapse / sensor /
effector re-references the new neuron id found by `position` over the old
ids (`unwrap` panics — `none` — when the reference is dangling); synapse
`distance`/`receptors` are copied, impulse lists are cleared and inactivity
zeroed; sensors and effectors *keep their own ids* (`id: s.id` / `id: e.id`);
effector potentials are zeroed; the config is cloned.  The uuid draws are
modelled by the `fresh` counter: brain id `fresh`, then neuron `i` gets
`fresh + 1 + i`. -/
def Brain.duplicate (b : Brain) (fresh : ℕ) : Option (Brain × ℕ) := do
  let id := fresh
  let neuron_indices := b.neurons.map Neuron.id
  let neurons := b.neurons.mapIdx (fun i n => Neuron.new (fresh + 1 + i) id n.position)
  let synapses ← b.synapses.mapM (fun s => do
    let sindex ← listPosition (fun x => x = s.source) neuron_indices
    let nindex ← listPosition (fun x => x = s.target) neuron_indices
    let src ← neurons[sindex]?
    let tgt ← neurons[nindex]?
    pure (⟨src.id, tgt.id, s.distance, s.receptors, [], 0⟩ : Synapse))
  let sensors ← b.sensors.mapM (fun s => do
    let index ← listPosition (fun x => x = s.target) neuron_indices
    let tgt ← neurons[index]?
    pure (⟨s.id, tgt.id⟩ : Sensor))
  let effectors ← b.effectors.mapM (fun e => do
    let index ← listPosition (fun x => x = e.source) neuron_indices
    let src ← neurons[index]?
    pure (⟨e.id, src.id, 0⟩ : Effector))
  pure (⟨id, neurons, synapses, sensors, effectors, b.config, 0⟩,
    fresh + 1 + b.neurons.length)

/-- Statement helper: the duplicate's neuron id corresponding to the original
neuron id `nid` (the `position` lookup of `duplicate`). -/
def dupIdOf (b : Brain) (fresh nid : ℕ) : ℕ :=
  fresh + 1 + (listPosition (fun x => x = nid) (b.neurons.map Neuron.id)).getD 0

/-- One neuron with a sensor (sensor id 3): input for the `duplicate`
counterexample — the duplicate's sensor keeps id 3. -/
def brainC8 : Brain :=
  ⟨0, [⟨1, 0, p000, 3⟩], [], [⟨3, 1⟩], [], cfg0, 0⟩

/-! ## Builder neighbor growth and impulse seeding -/

/-- `make_new_position` shared by `BrainBuilder` and `OffspringBuilder`:
offset `pos` by a random unit direction scaled by `scale`, then project back
onto the sphere of radius `radius` when the magnitude exceeds it.  The source
derives the direction from two angle draws through `cos`/`sin`
(transcendental over `ℚ`), so the direction is drawn directly (`Rng.genDir`);
the magnitude is `ratSqrt`-modelled. -/
def make_new_position (radius : ℚ) (pos : Position) (scale : ℚ) (rng : Rng) :
    Position × Rng :=
  let (dir, rng') := rng.genDir
  let p : Position :=
    ⟨pos.x + dir.x * scale, pos.y + dir.y * scale, pos.z + dir.z * scale⟩
  let magnitude := p.magnitude
  if magnitude > radius then
    (⟨radius * p.x / magnitude, radius * p.y / magnitude,
      radius * p.z / magnitude⟩, rng')
  else (p, rng')

/-- `make_neighbor_neuron` (brain_builder.rs:160-178; textually identical in
offspring_builder.rs:178-196): draw a scale from the neurogenesis range, pick
a random origin from the `neurons` candidate list, create the new neuron at
the generated position, then `bind_neurons(origin, new)`.  On bind failure
the function returns `None` — but the neuron created by `create_neuron`
stays in the brain; only the caller's candidate list misses it.  Panic
(`none`) paths: empty neurogenesis range, empty candidate list, missing
origin (`unwrap`), or a panicking bind. -/
def make_neighbor_neuron (minRange maxRange radius : ℚ) (neurons : List ℕ)
    (b : Brain) (rng : Rng) (fresh : ℕ) :
    Option (Option ℕ × Brain × Rng × ℕ) := do
  let (scale, rng1) ← rng.genRat minRange maxRange
  let (i, rng2) ← rng1.genNat 0 neurons.length
  let origin := neurons.getD (i % neurons.length) 0
  let originN ← b.neuron origin
  let (new_position, rng3) := make_new_position radius originN.position scale rng2
  let (nid, b2, fresh') := b.create_neuron new_position fresh
  match Brain.bind_neurons b2 origin nid rng3 with
  | .ok (_, b3, rng4) => some (some nid, b3, rng4, fresh')
  | .fail _ => some (none, b2, rng3, fresh')
  | .panic => none

/-- One iteration of `Brain::ignite_random_synapses` (brain.rs:1071-1082):
pick a random synapse (`gen_range(0, len)` panics on an empty list), then
push an impulse whose potential is `range.end` when the range is empty and a
draw from it otherwise, and whose timeout is a draw from `[0, distance)`
(`gen_range(0.0, distance)` panics when `distance ≤ 0`). -/
def ignite_step (b : Brain) (potential : RangeQ) (rng : Rng) :
    Option (Brain × Rng) := do
  let (i0, rng1) ← rng.genNat 0 b.synapses.length
  let i := i0 % b.synapses.length
  match b.synapses[i]? with
  | none => none
  | some s => do
    let (pot, rng2) ←
      if potential.stop ≤ potential.start then some (potential.stop, rng1)
      else rng1.genRat potential.start potential.stop
    let (t, rng3) ← rng2.genRat 0 s.distance
    let s' : Synapse := { s with impulses := s.impulses ++ [⟨pot, t⟩] }
    some ({ b with synapses := b.synapses.set i s' }, rng3)

/-- `Brain::ignite_random_synapses(count, potential)` (brain.rs:1069-1083). -/
def ignite_random_synapses (b : Brain) (count : ℕ) (potential : RangeQ)
    (rng : Rng) : Option (Brain × Rng) :=
  match count with
  | 0 => some (b, rng)
  | c + 1 => do
    let (b', rng') ← ignite_step b potential rng
    ignite_random_synapses b' c potential rng'

/-- Statement helper (C10): the constraints claim C10 puts on an ignited
impulse — timeout in `[0, distance)`, potential `= range.end` for an empty
range and within `[start, end)` otherwise. -/
def impulseInRange (potential : RangeQ) (dist : ℚ) (imp : Impulse) : Prop :=
  0 ≤ imp.timeout ∧ imp.timeout < dist ∧
    (if potential.stop ≤ potential.start then imp.potential = potential.stop
     else potential.start ≤ imp.potential ∧ imp.potential < potential.stop)

/-- Statement helper (C10): `b'` is `b` with some impulses appended per
synapse, everything else unchanged. -/
def IgniteExtends (potential : RangeQ) (b b' : Brain) : Prop :=
  b'.neurons = b.neurons ∧ b'.sensors = b.sensors ∧
  b'.effectors = b.effectors ∧ b'.config = b.config ∧
  b'.synapses.length = b.synapses.length ∧
  ∀ (j : ℕ) (s : Synapse), b.synapses[j]? = some s →
    ∃ app, b'.synapses[j]? = some { s with impulses := s.impulses ++ app } ∧
      ∀ imp ∈ app, impulseInRange potential s.distance imp

/-- Statement helper (C10): total number of in-flight impulses
(`Brain::get_impulses_count`). -/
def totalImpulses (b : Brain) : ℕ :=
  (b.synapses.map (fun s => s.impulses.length)).sum

/-- One neuron that drives an effector: binding a fresh neighbor to it fails
with `BindingEffectorToNeuron`, yet the created neuron stays in the brain. -/
def brainC9 : Brain :=
  ⟨0, [⟨1, 0, p000, 0⟩], [], [], [⟨9, 1, 0⟩], cfg0, 0⟩

/-- One synapse of distance 4 carrying no impulses: input for the C10
witness. -/
def brainC10 : Brain :=
  ⟨0, [⟨1, 0, p000, 0⟩, ⟨2, 0, p000, 0⟩], [⟨1, 2, 4, 1, [], 0⟩], [], [], cfg0, 0⟩

/-- One synapse of distance 0: the C10 abort input. -/
def brainC10z : Brain :=
  ⟨0, [⟨1, 0, p000, 0⟩, ⟨2, 0, p000, 0⟩], [⟨1, 2, 0, 1, [], 0⟩], [], [], cfg0, 0⟩

/-! ## Claim C1 — `kill_neuron` -/

/-- Claim C1 (status: code bug, evaluation at the failing input): killing a
neuron that a sensor targets panics instead of removing the sensor.  The
sensor-removal loop in `kill_neuron` is `while let Some(index) = index` over
the `Option` computed once before the loop, so it `swap_remove`s at a stale
index until the call panics out of bounds; the spec (§4.2) requires the
sensor to be removed and the call to succeed. -/
theorem c1_kill_neuron_sensor_panics :
    Brain.kill_neuron brainC1 1 = PResult.panic := by
  rfl

/-! ## Claim C2 — `kill_impulses` -/

/-- Claim C2 (status: code bug, evaluation at the failing input): the synapse
loop body of `kill_impulses` is `synapse.impulses.len();`, which discards its
result, so the in-flight impulse survives; neuron and effector potentials are
zeroed as specified. -/
theorem c2_kill_impulses_keeps_impulses :
    Brain.kill_impulses brainC2 =
      ⟨0, [⟨1, 0, p000, 0⟩, ⟨2, 0, p000, 0⟩],
        [⟨1, 2, 0, 1, [⟨1, 2⟩], 0⟩], [], [⟨3, 1, 0⟩], cfg0, 0⟩ := by
  rfl

/-! ## Claim C5 — `bind_neurons` precondition order and idempotence -/

/-- Claim C5: `bind_neurons` evaluates its preconditions in the order
self-loop → missing endpoint → already-connected (success with `None`, with
no change, even when a sensor or effector is attached) → sensor-at-target →
effector-at-source; otherwise exactly one synapse `(f, t)` is appended and
`Some receptors` is returned (the receptors draw presupposes a nonempty
`default_receptors` range), and a second identical call returns success with
`None` leaving the brain unchanged, so exactly one synapse remains. -/
theorem c5_bind_neurons_contract (b : Brain) (f t : ℕ) (rng : Rng) :
    (f = t → b.bind_neurons f t rng = .fail (.BindingNeuronToItSelf f)) ∧
    (f ≠ t → b.neuron f = none →
      b.bind_neurons f t rng = .fail (.NeuronDoesNotExists f)) ∧
    (f ≠ t → b.neuron f ≠ none → b.neuron t = none →
      b.bind_neurons f t rng = .fail (.NeuronDoesNotExists t)) ∧
    (f ≠ t → b.neuron f ≠ none → b.neuron t ≠ none →
      b.are_neurons_connected f t = true →
      b.bind_neurons f t rng = .ok (none, b, rng)) ∧
    (∀ s, f ≠ t → b.neuron f ≠ none → b.neuron t ≠ none →
      b.are_neurons_connected f t = false →
      b.sensors.find? (fun x => x.target = t) = some s →
      b.bind_neurons f t rng = .fail (.BindingNeuronToSensor t s.id)) ∧
    (∀ e, f ≠ t → b.neuron f ≠ none → b.neuron t ≠ none →
      b.are_neurons_connected f t = false →
      b.sensors.find? (fun x => x.target = t) = none →
      b.effectors.find? (fun x => x.source = f) = some e →
      b.bind_neurons f t rng = .fail (.BindingEffectorToNeuron e.id f)) ∧
    (∀ nf nt, f ≠ t → b.neuron f = some nf → b.neuron t = some nt →
      b.are_neurons_connected f t = false →
      b.sensors.find? (fun x => x.target = t) = none →
      b.effectors.find? (fun x => x.source = f) = none →
      b.config.default_receptors.start < b.config.default_receptors.stop →
      b.bind_neurons f t rng =
        .ok (some (rng.ratDrawVal b.config.default_receptors.start
            b.config.default_receptors.stop),
          { b with synapses := b.synapses ++
              [⟨f, t, nf.position.distance nt.position,
                rng.ratDrawVal b.config.default_receptors.start
                  b.config.default_receptors.stop, [], 0⟩] },
          rng.nextRat) ∧
      (({ b with synapses := b.synapses ++
            [⟨f, t, nf.position.distance nt.position,
              rng.ratDrawVal b.config.default_receptors.start
                b.config.default_receptors.stop, [], 0⟩] } : Brain).synapses.filter
          (fun s => s.source = f && s.target = t)).length = 1) ∧
    (∀ r b' rng', b.bind_neurons f t rng = .ok (some r, b', rng') →
      b'.bind_neurons f t rng' = .ok (none, b', rng')) := by
  refine ⟨?_, ?_, ?_, ?_, ?_, ?_, ?_, ?_⟩
  · intro h
    simp [Brain.bind_neurons, h]
  · intro hft hf
    simp [Brain.bind_neurons, hft, hf]
  · intro hft hf ht
    obtain ⟨nf, hnf⟩ := Option.ne_none_iff_exists'.mp hf
    simp [Brain.bind_neurons, hft, hnf, ht]
  · intro hft hf ht hconn
    obtain ⟨nf, hnf⟩ := Option.ne_none_iff_exists'.mp hf
    obtain ⟨nt, hnt⟩ := Option.ne_none_iff_exists'.mp ht
    simp [Brain.bind_neurons, hft, hnf, hnt, hconn]
  · intro s hft hf ht hconn hs
    obtain ⟨nf, hnf⟩ := Option.ne_none_iff_exists'.mp hf
    obtain ⟨nt, hnt⟩ := Option.ne_none_iff_exists'.mp ht
    simp [Brain.bind_neurons, hft, hnf, hnt, hconn, hs]
  · intro e hft hf ht hconn hs he
    obtain ⟨nf, hnf⟩ := Option.ne_none_iff_exists'.mp hf
    obtain ⟨nt, hnt⟩ := Option.ne_none_iff_exists'.mp ht
    simp [Brain.bind_neurons, hft, hnf, hnt, hconn, hs, he]
  · intro nf nt hft hnf hnt hconn hs he hlt
    constructor
    · simp [Brain.bind_neurons, hft, hnf, hnt, hconn, hs, he, Rng.genRat, hlt]
    · have hnone : (b.synapses.filter (fun s => s.source = f && s.target = t)) = [] := by
        rw [List.filter_eq_nil_iff]
        intro s hsmem hp
        have : b.are_neurons_connected f t = true := by
          unfold Brain.are_neurons_connected
          rw [List.any_eq_true]
          exact ⟨s, hsmem, hp⟩
        rw [hconn] at this
        cases this
      simp [List.filter_append, hnone]
  · intro r b' rng' h
    by_cases hft : f = t
    · simp [Brain.bind_neurons, hft] at h
    · cases hnf : b.neuron f with
      | none => simp [Brain.bind_neurons, hft, hnf] at h
      | some nf =>
        cases hnt : b.neuron t with
        | none => simp [Brain.bind_neurons, hft, hnf, hnt] at h
        | some nt =>
          by_cases hconn : b.are_neurons_connected f t
          · simp [Brain.bind_neurons, hft, hnf, hnt, hconn] at h
          · cases hs : b.sensors.find? (fun x => x.target = t) with
            | some s => simp [Brain.bind_neurons, hft, hnf, hnt, hconn, hs] at h
            | none =>
              cases he : b.effectors.find? (fun x => x.source = f) with
              | some e => simp [Brain.bind_neurons, hft, hnf, hnt, hconn, hs, he] at h
              | none =>
                by_cases hlt : b.config.default_receptors.start <
                    b.config.default_receptors.stop
                · simp only [Brain.bind_neurons, hft, hnf, hnt, hconn, hs, he,
                    Rng.genRat, if_neg hft, if_pos hlt, Bool.false_eq_true,
                    if_false] at h
                  injection h with h0
                  simp only [Prod.mk.injEq] at h0
                  obtain ⟨-, h2, h3⟩ := h0
                  subst h2
                  subst h3
                  have hnf' : Brain.neuron
                      { b with synapses := b.synapses ++
                          [⟨f, t, nf.position.distance nt.position,
                            rng.ratDrawVal b.config.default_receptors.start
                              b.config.default_receptors.stop, [], 0⟩] } f
                      = some nf := hnf
                  have hnt' : Brain.neuron
                      { b with synapses := b.synapses ++
                          [⟨f, t, nf.position.distance nt.position,
                            rng.ratDrawVal b.config.default_receptors.start
                              b.config.default_receptors.stop, [], 0⟩] } t
                      = some nt := hnt
                  have hconn' : Brain.are_neurons_connected
                      { b with synapses := b.synapses ++
                          [⟨f, t, nf.position.distance nt.position,
                            rng.ratDrawVal b.config.default_receptors.start
                              b.config.default_receptors.stop, [], 0⟩] } f t
                      = true := by
                    unfold Brain.are_neurons_connected
                    simp
                  simp [Brain.bind_neurons, hft, hnf', hnt', hconn']
                · simp [Brain.bind_neurons, hft, hnf, hnt, hconn, hs, he,
                    Rng.genRat, hlt] at h

/-- Witness for C5: the contract applied at concrete inputs — self-loop
rejection, a successful bind appending one synapse, and the idempotent second
call. -/
theorem c5_bind_neurons_witness :
    Brain.bind_neurons brainC5 1 1 rng0 = .fail (.BindingNeuronToItSelf 1) ∧
    Brain.bind_neurons brainC5 1 2 rng0 =
      .ok (some (rng0.ratDrawVal brainC5.config.default_receptors.start
          brainC5.config.default_receptors.stop),
        { brainC5 with synapses := brainC5.synapses ++
            [⟨1, 2, (Position.distance p000 ⟨3, 4, 0⟩),
              rng0.ratDrawVal brainC5.config.default_receptors.start
                brainC5.config.default_receptors.stop, [], 0⟩] },
        rng0.nextRat) ∧
    Brain.bind_neurons
        { brainC5 with synapses := brainC5.synapses ++
            [⟨1, 2, (Position.distance p000 ⟨3, 4, 0⟩),
              rng0.ratDrawVal brainC5.config.default_receptors.start
                brainC5.config.default_receptors.stop, [], 0⟩] } 1 2 rng0.nextRat =
      .ok (none,
        { brainC5 with synapses := brainC5.synapses ++
            [⟨1, 2, (Position.distance p000 ⟨3, 4, 0⟩),
              rng0.ratDrawVal brainC5.config.default_receptors.start
                brainC5.config.default_receptors.stop, [], 0⟩] },
        rng0.nextRat) := by
  have hself := (c5_bind_neurons_contract brainC5 1 1 rng0).1 rfl
  have h7 := (c5_bind_neurons_contract brainC5 1 2 rng0).2.2.2.2.2.2.1
    ⟨1, 0, p000, 0⟩ ⟨2, 0, ⟨3, 4, 0⟩, 0⟩ (by decide) rfl rfl rfl rfl rfl
    (by norm_num [brainC5, cfg0])
  have h9 := (c5_bind_neurons_contract brainC5 1 2 rng0).2.2.2.2.2.2.2
    (rng0.ratDrawVal brainC5.config.default_receptors.start
      brainC5.config.default_receptors.stop)
    ({ brainC5 with synapses := brainC5.synapses ++
        [⟨1, 2, (Position.distance p000 ⟨3, 4, 0⟩),
          rng0.ratDrawVal brainC5.config.default_receptors.start
            brainC5.config.default_receptors.stop, [], 0⟩] })
    rng0.nextRat h7.1
  exact ⟨hself, h7.1, h9⟩

/-! ## Claim C6 — `create_sensor` / `create_effector` -/

/-- Claim C6 counterexample: on the empty brain, neuron 5 does not exist, yet
`create_sensor(5)` and `create_effector(5)` both succeed (the source never
checks that the neuron exists), refuting "if n is not present they fail with
an error and do not alter the brain". -/
theorem c6_counterexample :
    hasNeuron brainEmpty 5 = false ∧
    Brain.create_sensor brainEmpty 5 10 =
      .ok (10, ⟨0, [], [], [⟨10, 5⟩], [], cfg0, 0⟩, 11) ∧
    Brain.create_effector brainEmpty 5 10 =
      .ok (10, ⟨0, [], [], [], [⟨10, 5, 0⟩], cfg0, 0⟩, 11) :=
  ⟨rfl, rfl, rfl⟩

/-- Claim C6 (amended): `create_sensor(n)` / `create_effector(n)` never check
that `n` exists; each succeeds (appending the new port) exactly when `n` is
neither any sensor's target nor any effector's source — even when `n` is
absent from the brain — and otherwise fails with
`NeuronIsAlreadyConnectedToSensor` / `NeuronIsAlreadyConnectedToEffector`,
leaving the brain unchanged. -/
theorem c6_create_ports_contract (b : Brain) (n fresh : ℕ) :
    (isSensorTarget b n = false → isEffectorSource b n = false →
      Brain.create_sensor b n fresh =
        .ok (fresh, { b with sensors := b.sensors ++ [⟨fresh, n⟩] }, fresh + 1) ∧
      Brain.create_effector b n fresh =
        .ok (fresh, { b with effectors := b.effectors ++ [⟨fresh, n, 0⟩] }, fresh + 1)) ∧
    (∀ s, b.sensors.find? (fun x => x.target = n) = some s →
      Brain.create_sensor b n fresh = .fail (.NeuronIsAlreadyConnectedToSensor n s.id) ∧
      Brain.create_effector b n fresh = .fail (.NeuronIsAlreadyConnectedToSensor n s.id)) ∧
    (∀ e, b.sensors.find? (fun x => x.target = n) = none →
      b.effectors.find? (fun x => x.source = n) = some e →
      Brain.create_sensor b n fresh = .fail (.NeuronIsAlreadyConnectedToEffector n e.id) ∧
      Brain.create_effector b n fresh = .fail (.NeuronIsAlreadyConnectedToEffector n e.id)) := by
  refine ⟨?_, ?_, ?_⟩
  · intro hsens heff
    have hs : b.sensors.find? (fun x => x.target = n) = none := by
      rw [List.find?_eq_none]
      intro x hx hpx
      have : isSensorTarget b n = true := by
        unfold isSensorTarget
        rw [List.any_eq_true]
        exact ⟨x, hx, hpx⟩
      rw [hsens] at this
      cases this
    have he : b.effectors.find? (fun x => x.source = n) = none := by
      rw [List.find?_eq_none]
      intro x hx hpx
      have : isEffectorSource b n = true := by
        unfold isEffectorSource
        rw [List.any_eq_true]
        exact ⟨x, hx, hpx⟩
      rw [heff] at this
      cases this
    exact ⟨by simp [Brain.create_sensor, hs, he], by simp [Brain.create_effector, hs, he]⟩
  · intro s hs
    exact ⟨by simp [Brain.create_sensor, hs], by simp [Brain.create_effector, hs]⟩
  · intro e hs he
    exact ⟨by simp [Brain.create_sensor, hs, he], by simp [Brain.create_effector, hs, he]⟩

/-- Witness for C6 (amended): on the empty brain — where neuron 5 is absent
and no ports exist — both creations succeed. -/
theorem c6_create_ports_witness :
    Brain.create_sensor brainEmpty 5 10 =
      .ok (10, { brainEmpty with sensors := brainEmpty.sensors ++ [⟨10, 5⟩] }, 11) ∧
    Brain.create_effector brainEmpty 5 10 =
      .ok (10, { brainEmpty with effectors := brainEmpty.effectors ++ [⟨10, 5, 0⟩] }, 11) :=
  (c6_create_ports_contract brainEmpty 5 10).1 rfl rfl

/-! ## Claim C7 — `select_neuron` -/

/-- Claim C7 counterexample: with reconnection range 5 and a single
non-sensor-target neuron at distance exactly 5 from the origin, the claim's
candidate set ("strictly outside radius r"; distance exactly r excluded) is
empty, so the claim requires `select_neuron` to return `None` — but the
source only rejects on `distance < srr`, so it returns that neuron. -/
theorem c7_counterexample :
    spec_select_candidates brainC7 p000 = [] ∧
    (Brain.select_neuron brainC7 p000 rng0).1 = some 1 := by
  have hd : Position.distance ⟨3, 4, 0⟩ p000 = 5 := by
    norm_num [Position.distance, Position.distance_sqr, p000, ratSqrt,
      natSqrt, natSqrtAux]
  constructor
  · simp [spec_select_candidates, brainC7, cfg0, hd]
  · simp [Brain.select_neuron, Brain.select_candidates, brainC7, cfg0, hd,
      Rng.genNat, Rng.natDrawVal, rng0]

/-- Claim C7 (amended): `select_neuron(origin)` returns `None` exactly when
the source's candidate set is empty and otherwise returns a member of it; the
candidate set contains precisely the neurons that are not any sensor's target
and, when `synapse_reconnection_range = Some(r)`, are *not* at distance
`< r` from the origin — so a neuron at distance exactly `r` *is* a candidate;
with range `None`, every non-sensor-target neuron is a candidate. -/
theorem c7_select_neuron_contract (b : Brain) (pos : Position) (rng : Rng) :
    ((b.select_neuron pos rng).1 = none ↔ Brain.select_candidates b pos = []) ∧
    (∀ id, (b.select_neuron pos rng).1 = some id →
      id ∈ Brain.select_candidates b pos) ∧
    (∀ n, n ∈ b.neurons → isSensorTarget b n.id = false →
      (∀ r, b.config.synapse_reconnection_range = some r →
        ¬(n.position.distance pos < r)) →
      n.id ∈ Brain.select_candidates b pos) ∧
    (∀ id, id ∈ Brain.select_candidates b pos →
      ∃ n, n ∈ b.neurons ∧ n.id = id ∧ isSensorTarget b n.id = false ∧
        ∀ r, b.config.synapse_reconnection_range = some r →
          ¬(n.position.distance pos < r)) := by
  refine ⟨?_, ?_, ?_, ?_⟩
  · by_cases hemp : (Brain.select_candidates b pos).isEmpty
    · simp [Brain.select_neuron, hemp, List.isEmpty_iff.mp hemp]
    · have hlen : 0 < (Brain.select_candidates b pos).length := by
        cases h : Brain.select_candidates b pos with
        | nil => rw [h] at hemp; simp at hemp
        | cons a l => simp [h]
      simp only [Brain.select_neuron, hemp, Bool.false_eq_true, if_false,
        Rng.genNat, if_pos hlen]
      constructor
      · intro h; cases h
      · intro h
        rw [h] at hemp
        simp at hemp
  · intro id h
    by_cases hemp : (Brain.select_candidates b pos).isEmpty
    · simp [Brain.select_neuron, hemp] at h
    · have hlen : 0 < (Brain.select_candidates b pos).length := by
        cases hc : Brain.select_candidates b pos with
        | nil => rw [hc] at hemp; simp at hemp
        | cons a l => simp [hc]
      simp only [Brain.select_neuron, hemp, Bool.false_eq_true, if_false,
        Rng.genNat, if_pos hlen, Option.some.injEq] at h
      subst h
      have hm : (rng.natDrawVal 0 (Brain.select_candidates b pos).length) %
          (Brain.select_candidates b pos).length <
          (Brain.select_candidates b pos).length :=
        Nat.mod_lt _ hlen
      rw [List.getD_eq_getElem _ _ hm]
      exact List.getElem_mem hm
  · intro n hn hsens hr
    unfold Brain.select_candidates
    rw [List.mem_filterMap]
    refine ⟨n, hn, ?_⟩
    have hsens' : (b.sensors.any (fun s => s.target = n.id)) = false := hsens
    rw [hsens']
    cases hcfg : b.config.synapse_reconnection_range with
    | none => simp
    | some r =>
      have := hr r hcfg
      simp [this]
  · intro id h
    unfold Brain.select_candidates at h
    rw [List.mem_filterMap] at h
    obtain ⟨n, hn, hf⟩ := h
    by_cases hsens : (b.sensors.any (fun s => s.target = n.id)) = true
    · rw [if_pos hsens] at hf; cases hf
    · rw [if_neg hsens] at hf
      refine ⟨n, hn, ?_, by simpa [isSensorTarget] using hsens, ?_⟩
      · cases hcfg : b.config.synapse_reconnection_range with
        | none => simp only [hcfg] at hf; injection hf
        | some r =>
          simp only [hcfg] at hf
          by_cases hd : n.position.distance pos < r
          · rw [if_pos hd] at hf; cases hf
          · rw [if_neg hd] at hf; injection hf
      · intro r hcfg
        simp only [hcfg] at hf
        by_cases hd : n.position.distance pos < r
        · rw [if_pos hd] at hf; cases hf
        · exact hd

/-- Witness for C7 (amended): on the boundary brain, the neuron at distance
exactly 5 is a member of the source's candidate set, and `select_neuron`
returns it. -/
theorem c7_select_neuron_witness :
    (1 : ℕ) ∈ Brain.select_candidates brainC7 p000 ∧
    ((Brain.select_neuron brainC7 p000 rng0).1 = none ↔
      Brain.select_candidates brainC7 p000 = []) := by
  have hd : Position.distance ⟨3, 4, 0⟩ p000 = 5 := by
    norm_num [Position.distance, Position.distance_sqr, p000, ratSqrt,
      natSqrt, natSqrtAux]
  constructor
  · exact (c7_select_neuron_contract brainC7 p000 rng0).2.2.1
      ⟨1, 0, ⟨3, 4, 0⟩, 0⟩ (by simp [brainC7]) rfl
      (by
        intro r hr
        simp only [brainC7] at hr
        injection hr with hr
        rw [← hr, hd]
        norm_num)
  · exact (c7_select_neuron_contract brainC7 p000 rng0).1

/-! ## Claim C3 — phase A impulse distribution -/

/-- Claim C3 counterexample: neuron 1 fires with snapshot potential `p = 2`;
per the claim the eligible set (inactivity ≤ 0 *and* receptors < cap 3) is
exactly the first synapse, so `k = 1` and that synapse should get one impulse
of potential `2/1 = 2`, with the over-cap synapse untouched.  The code instead
divides by the count *without* the cap (2 synapses, so potential `1`) and also
resets the over-cap synapse's inactivity to 7. -/
theorem c3_counterexample :
    ((brainC3.synapses.filter (fun s =>
        decide (s.inactivity ≤ 0) && decide (s.source = 1) &&
          decide (s.receptors < 3))).length = 1) ∧
    (Brain.potentialSummationPhase brainC3 1).synapses =
      [⟨1, 2, 4, 0, [⟨1, 4⟩], 7⟩, ⟨1, 2, 4, 5, [], 7⟩] ∧
    ¬((Brain.potentialSummationPhase brainC3 1).synapses.map Synapse.impulses =
      [[⟨2 / 1, 4⟩], []]) ∧
    ¬((Brain.potentialSummationPhase brainC3 1).synapses.map Synapse.inactivity =
      [7, 0]) := by
  have h : (Brain.potentialSummationPhase brainC3 1).synapses =
      [⟨1, 2, 4, 0, [⟨1, 4⟩], 7⟩, ⟨1, 2, 4, 5, [], 7⟩] := by
    norm_num [Brain.potentialSummationPhase, triggeringOf, fireOnto,
      fireTransform, liveOutgoing, brainC3, cfgC3, cfg0, List.filter,
      List.filterMap, List.foldl]
  refine ⟨by norm_num [brainC3, List.filter], h, ?_, ?_⟩
  · rw [h]
    intro hc
    simp only [List.map_cons, List.map_nil, List.cons.injEq] at hc
    have := hc.1
    simp only [List.cons.injEq] at this
    have h2 : (1 : ℚ) = 2 / 1 := congrArg Impulse.potential this.1
    norm_num at h2
  · rw [h]
    intro hc
    simp only [List.map_cons, List.map_nil, List.cons.injEq] at hc
    have h2 : (7 : ℚ) = 0 := hc.2.1
    norm_num at h2

/-! ### Helper lemmas for phase A -/

theorem liveOutgoing_source {id : ℕ} {s : Synapse}
    (h : liveOutgoing id s = true) : s.source = id := by
  unfold liveOutgoing at h
  rw [Bool.and_eq_true, decide_eq_true_eq, decide_eq_true_eq] at h
  exact h.2

theorem liveOutgoing_of_ne {id : ℕ} {s : Synapse} (h : s.source ≠ id) :
    liveOutgoing id s = false := by
  unfold liveOutgoing
  simp [h]

theorem fireTransform_source (cfg : Config) (p : ℚ) (s : Synapse) :
    (fireTransform cfg p s).source = s.source := rfl

theorem fireOnto_get?_of_not_live {cfg : Config} {syns : List Synapse}
    {idp : ℕ × ℚ} {j : ℕ} {s : Synapse} (hj : syns[j]? = some s)
    (hlive : liveOutgoing idp.1 s = false) :
    (fireOnto cfg syns idp)[j]? = some s := by
  unfold fireOnto
  dsimp only
  split
  · rw [List.getElem?_map, hj]
    simp [hlive]
  · exact hj

theorem fireOnto_get?_of_live {cfg : Config} {syns : List Synapse}
    {idp : ℕ × ℚ} {j : ℕ} {s : Synapse} (hj : syns[j]? = some s)
    (hlive : liveOutgoing idp.1 s = true) :
    (fireOnto cfg syns idp)[j]? = some (fireTransform cfg
      (idp.2 / ((syns.filter (liveOutgoing idp.1)).length : ℚ)) s) := by
  have hmem : s ∈ syns := by
    rw [List.getElem?_eq_some_iff] at hj
    obtain ⟨h, rfl⟩ := hj
    exact List.getElem_mem h
  have hpos : 0 < (syns.filter (liveOutgoing idp.1)).length :=
    List.length_pos.mpr
      (List.ne_nil_of_mem (List.mem_filter.mpr ⟨hmem, hlive⟩))
  unfold fireOnto
  dsimp only
  rw [if_pos hpos, List.getElem?_map, hj]
  simp [hlive]

theorem filter_map_live_invariant {g : Synapse → Synapse} {nid : ℕ}
    (hg : ∀ s, liveOutgoing nid s = liveOutgoing nid (g s) ∧
      (liveOutgoing nid s = true → g s = s)) :
    ∀ l : List Synapse,
      (l.map g).filter (liveOutgoing nid) = l.filter (liveOutgoing nid) := by
  intro l
  induction l with
  | nil => rfl
  | cons s rest ih =>
    simp only [List.map_cons, List.filter_cons, ← (hg s).1]
    by_cases hl : liveOutgoing nid s
    · rw [if_pos hl, if_pos hl, (hg s).2 hl, ih]
    · rw [if_neg hl, if_neg hl, ih]

theorem fireOnto_filter_preserved {cfg : Config} {syns : List Synapse}
    {x : ℕ × ℚ} {nid : ℕ} (hne : x.1 ≠ nid) :
    (fireOnto cfg syns x).filter (liveOutgoing nid) =
      syns.filter (liveOutgoing nid) := by
  unfold fireOnto
  dsimp only
  split
  · apply filter_map_live_invariant
    intro s
    by_cases hl : liveOutgoing x.1 s
    · have hsrc := liveOutgoing_source hl
      have h1 : liveOutgoing nid s = false :=
        liveOutgoing_of_ne (by rw [hsrc]; exact hne)
      have h2 : liveOutgoing nid (fireTransform cfg
          (x.2 / ((syns.filter (liveOutgoing x.1)).length : ℚ)) s) = false :=
        liveOutgoing_of_ne (by rw [fireTransform_source, hsrc]; exact hne)
      constructor
      · rw [if_pos hl, h1, h2]
      · intro hcon
        rw [hcon] at h1
        cases h1
    · rw [if_neg hl]
      exact ⟨rfl, fun _ => rfl⟩
  · rfl

theorem foldl_fireOnto_frame {cfg : Config} {ts : List (ℕ × ℚ)}
    {syns : List Synapse} {j : ℕ} {s : Synapse}
    (hj : syns[j]? = some s) (hts : ∀ x ∈ ts, x.1 ≠ s.source) :
    (ts.foldl (fireOnto cfg) syns)[j]? = some s := by
  induction ts generalizing syns with
  | nil => exact hj
  | cons x ts ih =>
    rw [List.foldl_cons]
    refine ih ?_ (fun y hy => hts y (List.mem_cons_of_mem _ hy))
    refine fireOnto_get?_of_not_live hj (liveOutgoing_of_ne ?_)
    intro hcon
    exact absurd hcon.symm (hts x (List.mem_cons_self x ts))

theorem foldl_fireOnto_filter {cfg : Config} {ts : List (ℕ × ℚ)} {nid : ℕ}
    (syns : List Synapse) (hts : ∀ x ∈ ts, x.1 ≠ nid) :
    (ts.foldl (fireOnto cfg) syns).filter (liveOutgoing nid) =
      syns.filter (liveOutgoing nid) := by
  induction ts generalizing syns with
  | nil => rfl
  | cons x ts ih =>
    rw [List.foldl_cons, ih _ (fun y hy => hts y (List.mem_cons_of_mem _ hy)),
      fireOnto_filter_preserved (hts x (List.mem_cons_self x ts))]

theorem triggering_mem {cfg : Config} {ns : List Neuron} {n : Neuron}
    (hn : n ∈ ns) (hf : n.potential ≥ cfg.action_potential_treshold) :
    (n.id, n.potential) ∈ triggeringOf cfg ns := by
  unfold triggeringOf
  rw [List.mem_filterMap]
  exact ⟨n, hn, by rw [if_pos hf]⟩

theorem triggering_fst_mem {cfg : Config} {ns : List Neuron} :
    ∀ x ∈ triggeringOf cfg ns, x.1 ∈ ns.map Neuron.id := by
  intro x hx
  unfold triggeringOf at hx
  rw [List.mem_filterMap] at hx
  obtain ⟨m, hm, hfx⟩ := hx
  by_cases hp : m.potential ≥ cfg.action_potential_treshold
  · rw [if_pos hp] at hfx
    injection hfx with hfx
    rw [← hfx]
    exact List.mem_map_of_mem _ hm
  · rw [if_neg hp] at hfx
    cases hfx

theorem triggering_ids_nodup {cfg : Config} {ns : List Neuron}
    (h : (ns.map Neuron.id).Nodup) :
    ((triggeringOf cfg ns).map Prod.fst).Nodup := by
  induction ns with
  | nil => simp [triggeringOf]
  | cons m rest ih =>
    simp only [List.map_cons, List.nodup_cons] at h
    unfold triggeringOf
    rw [List.filterMap_cons]
    by_cases hp : m.potential ≥ cfg.action_potential_treshold
    · rw [if_pos hp]
      simp only [List.map_cons, List.nodup_cons]
      refine ⟨?_, ih h.2⟩
      intro hcon
      rw [List.mem_map] at hcon
      obtain ⟨x, hx, hxid⟩ := hcon
      have := triggering_fst_mem x hx
      rw [hxid] at this
      exact h.1 this
    · rw [if_neg hp]
      exact ih h.2

/-- Claim C3 (amended): in phase A, for every neuron `n` that fires with
snapshot potential `p` (given neuron ids are distinct), the divisor `k` is
the number of outgoing synapses with `inactivity ≤ 0` — the overdose cap is
*not* part of the count; every such synapse has its inactivity reset to
`synapse_inactivity_time`, and receives one impulse `⟨p/k, its distance⟩`
exactly when its receptors are under the cap (`fireTransform`); an outgoing
synapse with `inactivity > 0` is untouched, and a synapse whose source id
beats no firing neuron is untouched. -/
theorem c3_fire_distribution (b : Brain) (dt : ℚ)
    (hnodup : (b.neurons.map Neuron.id).Nodup)
    (n : Neuron) (hn : n ∈ b.neurons)
    (hfire : n.potential ≥ b.config.action_potential_treshold) :
    ∀ (j : ℕ) (s : Synapse), b.synapses[j]? = some s →
      (liveOutgoing n.id s = true →
        (b.potentialSummationPhase dt).synapses[j]? = some (fireTransform b.config
          (n.potential / ((b.synapses.filter (liveOutgoing n.id)).length : ℚ)) s)) ∧
      (s.source = n.id → liveOutgoing n.id s = false →
        (b.potentialSummationPhase dt).synapses[j]? = some s) ∧
      ((∀ m ∈ b.neurons, m.id = s.source →
          m.potential < b.config.action_potential_treshold) →
        (b.potentialSummationPhase dt).synapses[j]? = some s) := by
  intro j s hj
  have hmem := @triggering_mem b.config _ _ hn hfire
  obtain ⟨ts1, ts2, hts⟩ := List.append_of_mem hmem
  have hnd := @triggering_ids_nodup b.config _ hnodup
  rw [hts, List.map_append, List.map_cons, List.nodup_append] at hnd
  obtain ⟨-, hnd2', hdisj⟩ := hnd
  rw [List.nodup_cons] at hnd2'
  have hnd1 : ∀ x ∈ ts1, x.1 ≠ n.id := by
    intro x hx heq
    have hmm : x.1 ∈ ts1.map Prod.fst := List.mem_map_of_mem _ hx
    rw [heq] at hmm
    exact hdisj hmm (List.mem_cons_self _ _)
  have hnd2 : ∀ x ∈ ts2, x.1 ≠ n.id := by
    intro x hx heq
    have hmm : x.1 ∈ ts2.map Prod.fst := List.mem_map_of_mem _ hx
    rw [heq] at hmm
    exact hnd2'.1 hmm
  have hphase : (b.potentialSummationPhase dt).synapses =
      ts2.foldl (fireOnto b.config)
        (fireOnto b.config (ts1.foldl (fireOnto b.config) b.synapses)
          (n.id, n.potential)) := by
    simp only [Brain.potentialSummationPhase]
    rw [hts, List.foldl_append, List.foldl_cons]
  refine ⟨?_, ?_, ?_⟩
  · intro hlive
    have hsrc := liveOutgoing_source hlive
    have h1 : (ts1.foldl (fireOnto b.config) b.synapses)[j]? = some s :=
      foldl_fireOnto_frame hj (fun x hx => hsrc ▸ hnd1 x hx)
    have hfil := @foldl_fireOnto_filter b.config ts1 n.id b.synapses hnd1
    rw [← hts] at *
    have h2 := @fireOnto_get?_of_live b.config _ (n.id, n.potential) _ _
      h1 hlive
    rw [hfil] at h2
    rw [hphase]
    exact foldl_fireOnto_frame h2
      (fun x hx => by rw [fireTransform_source, hsrc]; exact hnd2 x hx)
  · intro hsrc hlive
    have h1 : (ts1.foldl (fireOnto b.config) b.synapses)[j]? = some s :=
      foldl_fireOnto_frame hj (fun x hx => hsrc ▸ hnd1 x hx)
    have h2 := @fireOnto_get?_of_not_live b.config _ (n.id, n.potential) _ _
      h1 hlive
    rw [hphase]
    exact foldl_fireOnto_frame h2 (fun x hx => hsrc ▸ hnd2 x hx)
  · intro hquiet
    have hall : ∀ x ∈ triggeringOf b.config b.neurons, x.1 ≠ s.source := by
      intro x hx heq
      unfold triggeringOf at hx
      rw [List.mem_filterMap] at hx
      obtain ⟨m, hm, hfm⟩ := hx
      by_cases hp : m.potential ≥ b.config.action_potential_treshold
      · rw [if_pos hp] at hfm
        injection hfm with hfm
        have hid : m.id = s.source := by rw [← heq, ← hfm]
        exact absurd hp (not_le.mpr (hquiet m hm hid))
      · rw [if_neg hp] at hfm
        cases hfm
    simp only [Brain.potentialSummationPhase]
    exact foldl_fireOnto_frame hj hall

/-- Witness for C3 (amended): on the over-cap example brain, the contract
applied to the firing neuron and both synapses reproduces the evaluated
result: the under-cap synapse gets the impulse `⟨2/2, 4⟩` and the over-cap
synapse gets only the inactivity reset. -/
theorem c3_fire_distribution_witness :
    (Brain.potentialSummationPhase brainC3 1).synapses[0]? =
      some (fireTransform cfgC3 (2 / ((2 : ℕ) : ℚ)) ⟨1, 2, 4, 0, [], 0⟩) ∧
    (Brain.potentialSummationPhase brainC3 1).synapses[1]? =
      some (fireTransform cfgC3 (2 / ((2 : ℕ) : ℚ)) ⟨1, 2, 4, 5, [], 0⟩) := by
  have hc := c3_fire_distribution brainC3 1 (by simp [brainC3])
    ⟨1, 0, p000, 2⟩ (by simp [brainC3]) (by norm_num [brainC3, cfgC3, cfg0])
  have hflen : ((brainC3.synapses.filter (liveOutgoing 1)).length : ℚ) =
      ((2 : ℕ) : ℚ) := by
    norm_num [brainC3, List.filter, liveOutgoing]
  have h0 := (hc 0 ⟨1, 2, 4, 0, [], 0⟩ rfl).1 (by norm_num [liveOutgoing])
  have h1 := (hc 1 ⟨1, 2, 4, 5, [], 0⟩ rfl).1 (by norm_num [liveOutgoing])
  rw [hflen] at h0 h1
  have hcfg : brainC3.config = cfgC3 := rfl
  rw [hcfg] at h0 h1
  exact ⟨h0, h1⟩

/-! ## Claim C8 — `duplicate` -/

theorem listPosition_some_of_mem {α : Type} {p : α → Bool} {l : List α}
    (h : ∃ x ∈ l, p x) : ∃ i, listPosition p l = some i := by
  induction l with
  | nil =>
    obtain ⟨x, hx, -⟩ := h
    cases hx
  | cons a l ih =>
    by_cases hpa : p a
    · exact ⟨0, by simp [listPosition, hpa]⟩
    · obtain ⟨x, hx, hpx⟩ := h
      rcases List.mem_cons.mp hx with rfl | hx'
      · exact absurd hpx hpa
      · obtain ⟨i, hi⟩ := ih ⟨x, hx', hpx⟩
        exact ⟨i + 1, by simp [listPosition, hpa, hi]⟩

theorem mapM_option_eq_map {α β : Type} (g : α → Option β) (f : α → β)
    (l : List α) (h : ∀ a ∈ l, g a = some (f a)) :
    l.mapM g = some (l.map f) := by
  induction l with
  | nil => rfl
  | cons a l ih =>
    rw [List.mapM_cons, h a (List.mem_cons_self a l),
      ih (fun x hx => h x (List.mem_cons_of_mem _ hx))]
    rfl

/-- Claim C8 counterexample: duplicating a brain that carries sensor id 3
yields a duplicate whose sensor has the *same* id 3 (`id: s.id` in the
source), refuting "every entity id is distinct from every id of the
original" — only the brain id and the neuron ids are fresh. -/
theorem c8_counterexample :
    Brain.duplicate brainC8 100 =
      some (⟨100, [⟨101, 100, p000, 0⟩], [], [⟨3, 101⟩], [], cfg0, 0⟩, 102) ∧
    brainC8.sensors.map Sensor.id = [3] := by
  constructor
  · rfl
  · rfl

/-- Claim C8 (amended): `duplicate` returns a brain with a fresh brain id and
a fresh id for every neuron (all distinct from every id of the original,
which are assumed below the fresh counter); the synapse/sensor/effector graph
equals the original's up to the neuron-id mapping `dupIdOf` (same distances
and receptors); every impulse list is empty, every inactivity timer, neuron
potential and effector potential is zero; the `Config` is equal — but
sensors and effectors *keep their original ids*. -/
theorem c8_duplicate_contract (b : Brain) (fresh : ℕ)
    (hWSyn : ∀ s ∈ b.synapses, s.source ∈ b.neurons.map Neuron.id ∧
      s.target ∈ b.neurons.map Neuron.id)
    (hWSen : ∀ s ∈ b.sensors, s.target ∈ b.neurons.map Neuron.id)
    (hWEff : ∀ e ∈ b.effectors, e.source ∈ b.neurons.map Neuron.id)
    (hfresh : b.id < fresh ∧ (∀ n ∈ b.neurons, n.id < fresh) ∧
      (∀ s ∈ b.sensors, s.id < fresh) ∧ (∀ e ∈ b.effectors, e.id < fresh)) :
    Brain.duplicate b fresh = some
      (⟨fresh,
        b.neurons.mapIdx (fun i n => ⟨fresh + 1 + i, fresh, n.position, 0⟩),
        b.synapses.map (fun s => ⟨dupIdOf b fresh s.source,
          dupIdOf b fresh s.target, s.distance, s.receptors, [], 0⟩),
        b.sensors.map (fun s => ⟨s.id, dupIdOf b fresh s.target⟩),
        b.effectors.map (fun e => ⟨e.id, dupIdOf b fresh e.source, 0⟩),
        b.config, 0⟩,
      fresh + 1 + b.neurons.length) ∧
    (∀ b' c, Brain.duplicate b fresh = some (b', c) →
      b'.id = fresh ∧ b'.config = b.config ∧
      (b'.neurons.map Neuron.id).Nodup ∧
      b'.id ≠ b.id ∧
      (∀ nid ∈ b'.neurons.map Neuron.id,
        nid ≠ b.id ∧ nid ∉ b.neurons.map Neuron.id ∧
        nid ∉ b.sensors.map Sensor.id ∧ nid ∉ b.effectors.map Effector.id)) := by
  have hids : ∀ j : ℕ, j < b.neurons.length →
      ((b.neurons.mapIdx (fun i n =>
        (⟨fresh + 1 + i, fresh, n.position, 0⟩ : Neuron))).map Neuron.id)[j]? =
        some (fresh + 1 + j) := by
    intro j hj
    rw [List.getElem?_map, List.getElem?_mapIdx, List.getElem?_eq_getElem hj]
    rfl
  have hmain : Brain.duplicate b fresh = some
      (⟨fresh,
        b.neurons.mapIdx (fun i n => ⟨fresh + 1 + i, fresh, n.position, 0⟩),
        b.synapses.map (fun s => ⟨dupIdOf b fresh s.source,
          dupIdOf b fresh s.target, s.distance, s.receptors, [], 0⟩),
        b.sensors.map (fun s => ⟨s.id, dupIdOf b fresh s.target⟩),
        b.effectors.map (fun e => ⟨e.id, dupIdOf b fresh e.source, 0⟩),
        b.config, 0⟩,
      fresh + 1 + b.neurons.length) := by
    have hsyn := mapM_option_eq_map
      (fun s : Synapse => do
        let sindex ← listPosition (fun x => x = s.source) (b.neurons.map Neuron.id)
        let nindex ← listPosition (fun x => x = s.target) (b.neurons.map Neuron.id)
        let src ← (b.neurons.mapIdx (fun i n =>
          (⟨fresh + 1 + i, fresh, n.position, 0⟩ : Neuron)))[sindex]?
        let tgt ← (b.neurons.mapIdx (fun i n =>
          (⟨fresh + 1 + i, fresh, n.position, 0⟩ : Neuron)))[nindex]?
        pure (⟨src.id, tgt.id, s.distance, s.receptors, [], 0⟩ : Synapse))
      (fun s => ⟨dupIdOf b fresh s.source,
        dupIdOf b fresh s.target, s.distance, s.receptors, [], 0⟩)
      b.synapses (by
        intro s hs
        obtain ⟨hsrc, htgt⟩ := hWSyn s hs
        obtain ⟨i, hi⟩ := listPosition_some_of_mem
          (p := fun x => decide (x = s.source)) ⟨s.source, hsrc, by simp⟩
        obtain ⟨k, hk⟩ := listPosition_some_of_mem
          (p := fun x => decide (x = s.target)) ⟨s.target, htgt, by simp⟩
        have hil : i < b.neurons.length := by
          have := listPosition_lt_length hi
          simpa using this
        have hkl : k < b.neurons.length := by
          have := listPosition_lt_length hk
          simpa using this
        simp only [hi, hk, Option.bind_eq_bind, Option.some_bind,
          List.getElem?_mapIdx, List.getElem?_eq_getElem hil,
          List.getElem?_eq_getElem hkl, Option.map_some, Neuron.new,
          dupIdOf, Option.getD_some]
        rfl)
    have hsen := mapM_option_eq_map
      (fun s : Sensor => do
        let index ← listPosition (fun x => x = s.target) (b.neurons.map Neuron.id)
        let tgt ← (b.neurons.mapIdx (fun i n =>
          (⟨fresh + 1 + i, fresh, n.position, 0⟩ : Neuron)))[index]?
        pure (⟨s.id, tgt.id⟩ : Sensor))
      (fun s => ⟨s.id, dupIdOf b fresh s.target⟩)
      b.sensors (by
        intro s hs
        obtain ⟨i, hi⟩ := listPosition_some_of_mem
          (p := fun x => decide (x = s.target)) ⟨s.target, hWSen s hs, by simp⟩
        have hil : i < b.neurons.length := by
          have := listPosition_lt_length hi
          simpa using this
        simp only [hi, Option.bind_eq_bind, Option.some_bind,
          List.getElem?_mapIdx, List.getElem?_eq_getElem hil, Option.map_some,
          Neuron.new, dupIdOf, Option.getD_some]
        rfl)
    have heff := mapM_option_eq_map
      (fun e : Effector => do
        let index ← listPosition (fun x => x = e.source) (b.neurons.map Neuron.id)
        let src ← (b.neurons.mapIdx (fun i n =>
          (⟨fresh + 1 + i, fresh, n.position, 0⟩ : Neuron)))[index]?
        pure (⟨e.id, src.id, 0⟩ : Effector))
      (fun e => ⟨e.id, dupIdOf b fresh e.source, 0⟩)
      b.effectors (by
        intro e he
        obtain ⟨i, hi⟩ := listPosition_some_of_mem
          (p := fun x => decide (x = e.source)) ⟨e.source, hWEff e he, by simp⟩
        have hil : i < b.neurons.length := by
          have := listPosition_lt_length hi
          simpa using this
        simp only [hi, Option.bind_eq_bind, Option.some_bind,
          List.getElem?_mapIdx, List.getElem?_eq_getElem hil, Option.map_some,
          Neuron.new, dupIdOf, Option.getD_some]
        rfl)
    simp only [Option.bind_eq_bind] at hsyn hsen heff
    simp only [Brain.duplicate, Option.bind_eq_bind, Neuron.new]
    rw [hsyn]
    simp only [Option.some_bind]
    rw [hsen]
    simp only [Option.some_bind]
    rw [heff]
    simp only [Option.some_bind]
    rfl
  refine ⟨hmain, ?_⟩
  intro b' c h
  rw [hmain] at h
  injection h with h
  have hb' : b' = ⟨fresh,
      b.neurons.mapIdx (fun i n => ⟨fresh + 1 + i, fresh, n.position, 0⟩),
      b.synapses.map (fun s => ⟨dupIdOf b fresh s.source,
        dupIdOf b fresh s.target, s.distance, s.receptors, [], 0⟩),
      b.sensors.map (fun s => ⟨s.id, dupIdOf b fresh s.target⟩),
      b.effectors.map (fun e => ⟨e.id, dupIdOf b fresh e.source, 0⟩),
      b.config, 0⟩ := (congrArg Prod.fst h).symm
  subst hb'
  have hmem : ∀ nid ∈ (b.neurons.mapIdx (fun i n =>
      (⟨fresh + 1 + i, fresh, n.position, 0⟩ : Neuron))).map Neuron.id,
      fresh < nid := by
    intro nid hnid
    rw [List.mem_iff_getElem?] at hnid
    obtain ⟨j, hj⟩ := hnid
    have hjl : j < b.neurons.length := by
      by_contra hcon
      rw [List.getElem?_eq_none] at hj
      · cases hj
      · simpa using Nat.le_of_not_lt hcon
    rw [hids j hjl] at hj
    injection hj with hj
    omega
  refine ⟨rfl, rfl, ?_, ?_, ?_⟩
  · rw [List.nodup_iff_getElem?_ne_getElem?]
    intro i j hij hjl
    simp only [List.length_map, List.length_mapIdx] at hjl
    rw [hids i (lt_trans hij hjl), hids j hjl]
    intro hcon
    injection hcon with hcon
    omega
  · show fresh ≠ b.id
    have := hfresh.1
    omega
  · intro nid hnid
    have hgt := hmem nid hnid
    refine ⟨?_, ?_, ?_, ?_⟩
    · intro hcon
      have := hfresh.1
      omega
    · intro hcon
      rw [List.mem_map] at hcon
      obtain ⟨m, hm, hmid⟩ := hcon
      have := hfresh.2.1 m hm
      omega
    · intro hcon
      rw [List.mem_map] at hcon
      obtain ⟨m, hm, hmid⟩ := hcon
      have := hfresh.2.2.1 m hm
      omega
    · intro hcon
      rw [List.mem_map] at hcon
      obtain ⟨m, hm, hmid⟩ := hcon
      have := hfresh.2.2.2 m hm
      omega

/-- Witness for C8 (amended): the contract applied to the sensor-carrying
example brain with fresh counter 100. -/
theorem c8_duplicate_witness :
    Brain.duplicate brainC8 100 = some
      (⟨100,
        brainC8.neurons.mapIdx (fun i n => ⟨100 + 1 + i, 100, n.position, 0⟩),
        brainC8.synapses.map (fun s => ⟨dupIdOf brainC8 100 s.source,
          dupIdOf brainC8 100 s.target, s.distance, s.receptors, [], 0⟩),
        brainC8.sensors.map (fun s => ⟨s.id, dupIdOf brainC8 100 s.target⟩),
        brainC8.effectors.map (fun e => ⟨e.id, dupIdOf brainC8 100 e.source, 0⟩),
        brainC8.config, 0⟩,
      100 + 1 + brainC8.neurons.length) :=
  (c8_duplicate_contract brainC8 100 (by simp [brainC8])
    (by intro s hs; fin_cases hs; simp [brainC8])
    (by simp [brainC8])
    ⟨by norm_num [brainC8], by intro n hn; fin_cases hn; norm_num [brainC8],
      by intro s hs; fin_cases hs; norm_num [brainC8],
      by simp [brainC8]⟩).1

/-! ## Claim C9 — builder neighbor growth on bind failure -/

theorem bind_neurons_ok_components {b : Brain} {f t : ℕ} {rng : Rng}
    {o : Option ℚ} {b' : Brain} {rng' : Rng}
    (h : Brain.bind_neurons b f t rng = .ok (o, b', rng')) :
    b'.neurons = b.neurons ∧ b'.sensors = b.sensors ∧
      b'.effectors = b.effectors ∧
      (∀ s ∈ b'.synapses, s ∈ b.synapses ∨ s.impulses = []) := by
  by_cases hft : f = t
  · simp [Brain.bind_neurons, hft] at h
  · cases hnf : b.neuron f with
    | none => simp [Brain.bind_neurons, hft, hnf] at h
    | some nf =>
      cases hnt : b.neuron t with
      | none => simp [Brain.bind_neurons, hft, hnf, hnt] at h
      | some nt =>
        by_cases hconn : b.are_neurons_connected f t
        · simp only [Brain.bind_neurons, if_neg hft, hnf, hnt, hconn,
            if_true, PResult.ok.injEq, Prod.mk.injEq] at h
          obtain ⟨-, h2, -⟩ := h
          subst h2
          exact ⟨rfl, rfl, rfl, fun s hs => Or.inl hs⟩
        · cases hs : b.sensors.find? (fun x => x.target = t) with
          | some s => simp [Brain.bind_neurons, hft, hnf, hnt, hconn, hs] at h
          | none =>
            cases he : b.effectors.find? (fun x => x.source = f) with
            | some e =>
              simp [Brain.bind_neurons, hft, hnf, hnt, hconn, hs, he] at h
            | none =>
              cases hg : rng.genRat b.config.default_receptors.start
                  b.config.default_receptors.stop with
              | none =>
                simp [Brain.bind_neurons, hft, hnf, hnt, hconn, hs, he, hg] at h
              | some pr =>
                simp only [Brain.bind_neurons, if_neg hft, hnf, hnt, hconn,
                  Bool.false_eq_true, if_false, hs, he, hg, PResult.ok.injEq,
                  Prod.mk.injEq] at h
                obtain ⟨-, h2, -⟩ := h
                subst h2
                refine ⟨rfl, rfl, rfl, ?_⟩
                intro s hs
                rcases List.mem_append.mp hs with h' | h'
                · exact Or.inl h'
                · rcases List.mem_singleton.mp h' with rfl
                  exact Or.inr rfl

/-- Claim C9 counterexample: the single neuron 1 drives effector 9, so
`bind_neurons(1, new)` fails with `BindingEffectorToNeuron`; the function
returns `None` — but the freshly created neuron (id 50) is present in the
returned brain, refuting "the resulting brain does not contain it". -/
theorem c9_counterexample :
    make_neighbor_neuron 0 1 10 [1] brainC9 rng0 50 =
      some (none,
        { brainC9 with neurons := brainC9.neurons ++ [⟨50, 0, p000, 0⟩] },
        ⟨rng0.nats, rng0.rats, rng0.dirs, 1, 1, 1⟩, 51) ∧
    (50 : ℕ) ∈ ({ brainC9 with neurons :=
        brainC9.neurons ++ [⟨50, 0, p000, 0⟩] } : Brain).neurons.map Neuron.id := by
  constructor
  · norm_num [make_neighbor_neuron, make_new_position, Brain.create_neuron,
      Brain.bind_neurons, Brain.neuron, Brain.are_neurons_connected,
      Neuron.new, Rng.genRat, Rng.genNat, Rng.genDir, Rng.ratDrawVal,
      Rng.natDrawVal, Rng.nextRat, Rng.nextNat, brainC9, cfg0, rng0, p000,
      Position.magnitude, Position.magnitude_sqr, ratSqrt, natSqrt,
      natSqrtAux, List.find?]
  · simp [brainC9]

/-- Claim C9 (amended): whenever the neighbor-growth step returns (no panic),
the freshly created neuron is present in the resulting brain — in
particular, when `bind_neurons(origin, new)` fails the step returns `None`
(so the caller does not add the neuron to its growth candidate list), but the
resulting brain is exactly the input brain with the new neuron appended: the
neuron is *not* removed. -/
theorem c9_neighbor_contract (minRange maxRange radius : ℚ)
    (neurons : List ℕ) (b : Brain) (rng : Rng) (fresh : ℕ) :
    (∀ o b' rng' fresh',
      make_neighbor_neuron minRange maxRange radius neurons b rng fresh =
        some (o, b', rng', fresh') →
      fresh' = fresh + 1 ∧ fresh ∈ b'.neurons.map Neuron.id) ∧
    (∀ b' rng' fresh',
      make_neighbor_neuron minRange maxRange radius neurons b rng fresh =
        some (none, b', rng', fresh') →
      ∃ pos, b' = { b with neurons :=
        b.neurons ++ [Neuron.new fresh b.id pos] }) := by
  cases hg1 : rng.genRat minRange maxRange with
  | none =>
    constructor
    · intro o b' rng' fresh' h
      simp [make_neighbor_neuron, hg1] at h
    · intro b' rng' fresh' h
      simp [make_neighbor_neuron, hg1] at h
  | some p1 =>
    obtain ⟨scale, rng1⟩ := p1
    cases hg2 : rng1.genNat 0 neurons.length with
    | none =>
      constructor
      · intro o b' rng' fresh' h
        simp [make_neighbor_neuron, hg1, hg2] at h
      · intro b' rng' fresh' h
        simp [make_neighbor_neuron, hg1, hg2] at h
    | some p2 =>
      obtain ⟨i, rng2⟩ := p2
      cases hno : b.neuron (neurons.getD (i % neurons.length) 0) with
      | none =>
        constructor
        · intro o b' rng' fresh' h
          simp only [make_neighbor_neuron, hg1, hg2, hno, Option.bind_eq_bind,
            Option.some_bind, Option.none_bind] at h
          cases h
        · intro b' rng' fresh' h
          simp only [make_neighbor_neuron, hg1, hg2, hno, Option.bind_eq_bind,
            Option.some_bind, Option.none_bind] at h
          cases h
      | some originN =>
        rcases hmp : make_new_position radius originN.position scale rng2 with
          ⟨np, rng3⟩
        cases hb : Brain.bind_neurons
            { b with neurons := b.neurons ++ [Neuron.new fresh b.id np] }
            (neurons.getD (i % neurons.length) 0) fresh rng3 with
        | ok triple =>
          obtain ⟨o2, b3, rng4⟩ := triple
          have hn3 := (bind_neurons_ok_components hb).1
          constructor
          · intro o b' rng' fresh' h
            simp only [make_neighbor_neuron, hg1, hg2, hno, hmp,
              Brain.create_neuron, Option.bind_eq_bind, Option.some_bind,
              hb, Option.some.injEq, Prod.mk.injEq] at h
            obtain ⟨-, h2, -, h4⟩ := h
            subst h2
            subst h4
            refine ⟨rfl, ?_⟩
            rw [hn3]
            simp [Neuron.new]
          · intro b' rng' fresh' h
            simp only [make_neighbor_neuron, hg1, hg2, hno, hmp,
              Brain.create_neuron, Option.bind_eq_bind, Option.some_bind,
              hb, Option.some.injEq, Prod.mk.injEq] at h
            obtain ⟨h1, -⟩ := h
            cases h1
        | fail e =>
          constructor
          · intro o b' rng' fresh' h
            simp only [make_neighbor_neuron, hg1, hg2, hno, hmp,
              Brain.create_neuron, Option.bind_eq_bind, Option.some_bind,
              hb, Option.some.injEq, Prod.mk.injEq] at h
            obtain ⟨-, h2, -, h4⟩ := h
            subst h2
            subst h4
            refine ⟨rfl, ?_⟩
            simp [Neuron.new]
          · intro b' rng' fresh' h
            simp only [make_neighbor_neuron, hg1, hg2, hno, hmp,
              Brain.create_neuron, Option.bind_eq_bind, Option.some_bind,
              hb, Option.some.injEq, Prod.mk.injEq] at h
            obtain ⟨-, h2, -, -⟩ := h
            exact ⟨np, h2.symm⟩
        | panic =>
          constructor
          · intro o b' rng' fresh' h
            simp only [make_neighbor_neuron, hg1, hg2, hno, hmp,
              Brain.create_neuron, Option.bind_eq_bind, Option.some_bind,
              hb] at h
            cases h
          · intro b' rng' fresh' h
            simp only [make_neighbor_neuron, hg1, hg2, hno, hmp,
              Brain.create_neuron, Option.bind_eq_bind, Option.some_bind,
              hb] at h
            cases h

/-- Witness for C9 (amended): applied at the effector-blocked input — the
step returns `None` and the brain is the input plus the appended neuron. -/
theorem c9_neighbor_witness :
    ∃ pos, ({ brainC9 with neurons :=
        brainC9.neurons ++ [⟨50, 0, p000, 0⟩] } : Brain) =
      { brainC9 with neurons :=
        brainC9.neurons ++ [Neuron.new 50 brainC9.id pos] } := by
  refine (c9_neighbor_contract 0 1 10 [1] brainC9 rng0 50).2
    ({ brainC9 with neurons := brainC9.neurons ++ [⟨50, 0, p000, 0⟩] })
    ⟨rng0.nats, rng0.rats, rng0.dirs, 1, 1, 1⟩ 51 ?_
  norm_num [make_neighbor_neuron, make_new_position, Brain.create_neuron,
    Brain.bind_neurons, Brain.neuron, Brain.are_neurons_connected,
    Neuron.new, Rng.genRat, Rng.genNat, Rng.genDir, Rng.ratDrawVal,
    Rng.natDrawVal, Rng.nextRat, Rng.nextNat, brainC9, cfg0, rng0, p000,
    Position.magnitude, Position.magnitude_sqr, ratSqrt, natSqrt,
    natSqrtAux, List.find?]

/-! ## Claim C10 — `ignite_random_synapses` -/

theorem ratDrawVal_mem {rng : Rng} {lo hi : ℚ} (h : lo < hi) :
    lo ≤ rng.ratDrawVal lo hi ∧ rng.ratDrawVal lo hi < hi := by
  unfold Rng.ratDrawVal
  dsimp only
  by_cases hc : lo ≤ rng.rats rng.ratIdx ∧ rng.rats rng.ratIdx < hi
  · rw [if_pos hc]
    exact hc
  · rw [if_neg hc]
    exact ⟨le_refl lo, h⟩

theorem sum_map_len_set {l : List Synapse} :
    ∀ {i : ℕ} {s s' : Synapse}, l[i]? = some s →
    s'.impulses.length = s.impulses.length + 1 →
    ((l.set i s').map (fun x => x.impulses.length)).sum =
      ((l.map (fun x => x.impulses.length)).sum) + 1 := by
  induction l with
  | nil =>
    intro i s s' h hlen
    cases h
  | cons a l ih =>
    intro i s s' h hlen
    cases i with
    | zero =>
      rw [List.getElem?_cons_zero] at h
      injection h with h
      subst h
      simp only [List.set_cons_zero, List.map_cons, List.sum_cons, hlen]
      omega
    | succ i =>
      rw [List.getElem?_cons_succ] at h
      simp only [List.set_cons_succ, List.map_cons, List.sum_cons, ih h hlen]
      omega

theorem igniteExtends_refl (potential : RangeQ) (b : Brain) :
    IgniteExtends potential b b := by
  refine ⟨rfl, rfl, rfl, rfl, rfl, ?_⟩
  intro j s h
  exact ⟨[], by simpa using h, by simp⟩

theorem igniteExtends_trans {potential : RangeQ} {b1 b2 b3 : Brain}
    (h12 : IgniteExtends potential b1 b2)
    (h23 : IgniteExtends potential b2 b3) :
    IgniteExtends potential b1 b3 := by
  obtain ⟨hn, hs, he, hc, hl, hj⟩ := h12
  obtain ⟨hn', hs', he', hc', hl', hj'⟩ := h23
  refine ⟨hn'.trans hn, hs'.trans hs, he'.trans he, hc'.trans hc,
    hl'.trans hl, ?_⟩
  intro j s h
  obtain ⟨a1, h2, hr1⟩ := hj j s h
  obtain ⟨a2, h3, hr2⟩ := hj' j _ h2
  refine ⟨a1 ++ a2, ?_, ?_⟩
  · rw [h3]
    simp
  · intro imp hi
    rcases List.mem_append.mp hi with h' | h'
    · exact hr1 imp h'
    · exact hr2 imp h'

theorem ignite_step_extends {b : Brain} {potential : RangeQ} {rng : Rng}
    (hne : b.synapses ≠ []) (hd : ∀ s ∈ b.synapses, 0 < s.distance) :
    ∃ b' rng', ignite_step b potential rng = some (b', rng') ∧
      IgniteExtends potential b b' ∧
      totalImpulses b' = totalImpulses b + 1 ∧
      (∀ s ∈ b'.synapses, 0 < s.distance) ∧ b'.synapses ≠ [] := by
  have hlen : 0 < b.synapses.length := List.length_pos.mpr hne
  have hil : rng.natDrawVal 0 b.synapses.length % b.synapses.length <
      b.synapses.length := Nat.mod_lt _ hlen
  have hsi : b.synapses[rng.natDrawVal 0 b.synapses.length %
      b.synapses.length]? = some (b.synapses[rng.natDrawVal 0
      b.synapses.length % b.synapses.length]) := List.getElem?_eq_getElem hil
  set i := rng.natDrawVal 0 b.synapses.length % b.synapses.length with hidef
  set s := b.synapses[i] with hsdef
  have hsmem : s ∈ b.synapses := List.getElem_mem hil
  have hdist : 0 < s.distance := hd s hsmem
  have hstep : ∃ (pot : ℚ) (rng2 : Rng),
      ignite_step b potential rng =
        some ({ b with synapses := b.synapses.set i { s with impulses := s.impulses ++ [⟨pot, rng2.ratDrawVal 0 s.distance⟩] } }, rng2.nextRat) ∧
      (if potential.stop ≤ potential.start then pot = potential.stop
       else potential.start ≤ pot ∧ pot < potential.stop) := by
    by_cases hps : potential.stop ≤ potential.start
    · refine ⟨potential.stop, rng.nextNat, ?_, by rw [if_pos hps]⟩
      simp only [ignite_step, Rng.genNat, if_pos hlen, Option.bind_eq_bind,
        Option.some_bind, ← hidef, ← hsdef, hsi, if_pos hps]
      unfold Rng.genRat
      rw [if_pos hdist]
      simp
    · refine ⟨(rng.nextNat).ratDrawVal potential.start potential.stop,
        (rng.nextNat).nextRat, ?_, by rw [if_neg hps]; exact ratDrawVal_mem (lt_of_not_le hps)⟩
      simp only [ignite_step, Rng.genNat, if_pos hlen, Option.bind_eq_bind,
        Option.some_bind, ← hidef, ← hsdef, hsi, if_neg hps]
      unfold Rng.genRat
      rw [if_pos (lt_of_not_le hps)]
      simp only [Option.some_bind]
      rw [if_pos hdist]
      simp
  obtain ⟨pot, rng2, hstepEq, hpval⟩ := hstep
  refine ⟨{ b with synapses := b.synapses.set i { s with impulses := s.impulses ++ [⟨pot, rng2.ratDrawVal 0 s.distance⟩] } }, rng2.nextRat, hstepEq, ?_, ?_, ?_, ?_⟩
  · refine ⟨rfl, rfl, rfl, rfl, by simp, ?_⟩
    intro j t hj
    by_cases hji : j = i
    · subst hji
      rw [hj] at hsi
      injection hsi with hsi
      refine ⟨[⟨pot, rng2.ratDrawVal 0 s.distance⟩], ?_, ?_⟩
      · simp only [List.getElem?_set_self hil, hsi]
      · intro imp hi
        rcases List.mem_singleton.mp hi with rfl
        have htv := @ratDrawVal_mem rng2 _ _ hdist
        refine ⟨htv.1, ?_, ?_⟩
        · rw [hsi]
          exact htv.2
        · exact hpval
    · refine ⟨[], ?_, by simp⟩
      rw [List.getElem?_set_ne (fun hcon => hji hcon.symm)]
      simpa using hj
  · exact sum_map_len_set hsi (by simp)
  · intro t ht
    rcases List.mem_or_eq_of_mem_set ht with h' | h'
    · exact hd t h'
    · rw [h']
      exact hdist
  · intro hcon
    have hlz : b.synapses.length = 0 := by
      have hlen0 := congrArg List.length hcon
      simpa using hlen0
    omega

/-- Claim C10: on a brain with at least one synapse, all of positive
distance, `ignite_random_synapses(count, range)` completes without aborting
and appends exactly `count` impulses in total, each to an existing synapse,
each with timeout in `[0, that synapse's distance)` and potential `=
range.end` when `range.end ≤ range.start` and within `[range.start,
range.end)` otherwise (`IgniteExtends`/`impulseInRange`); with `count > 0`
it aborts (panics) on a brain with no synapses, and also when the first
chosen synapse has distance 0. -/
theorem c10_ignite_contract (b : Brain) (count : ℕ) (potential : RangeQ)
    (rng : Rng) :
    (b.synapses ≠ [] → (∀ s ∈ b.synapses, 0 < s.distance) →
      ∃ b' rng', ignite_random_synapses b count potential rng = some (b', rng') ∧
        IgniteExtends potential b b' ∧
        totalImpulses b' = totalImpulses b + count) ∧
    (0 < count → b.synapses = [] →
      ignite_random_synapses b count potential rng = none) ∧
    (0 < count → ∀ s : Synapse,
      b.synapses[(rng.natDrawVal 0 b.synapses.length) %
        b.synapses.length]? = some s → s.distance = 0 →
      ignite_random_synapses b count potential rng = none) := by
  refine ⟨?_, ?_, ?_⟩
  · induction count generalizing b rng with
    | zero =>
      intro hne hd
      exact ⟨b, rng, rfl, igniteExtends_refl potential b, by simp⟩
    | succ c ih =>
      intro hne hd
      obtain ⟨b1, rng1, hstep, hext, htot, hd1, hne1⟩ :=
        @ignite_step_extends _ potential rng hne hd
      obtain ⟨b2, rng2, hrec, hext2, htot2⟩ := ih b1 rng1 hne1 hd1
      refine ⟨b2, rng2, ?_, igniteExtends_trans hext hext2, ?_⟩
      · simp only [ignite_random_synapses, Option.bind_eq_bind, hstep,
          Option.some_bind]
        exact hrec
      · rw [htot2, htot]
        omega
  · intro hc hemp
    cases count with
    | zero => cases hc
    | succ c =>
      simp [ignite_random_synapses, ignite_step, hemp, Rng.genNat]
  · intro hc s hs hdist
    cases count with
    | zero => cases hc
    | succ c =>
      have hlen : 0 < b.synapses.length := by
        by_contra hcon
        rw [List.getElem?_eq_none (by omega)] at hs
        cases hs
      have hstep : ignite_step b potential rng = none := by
        by_cases hps : potential.stop ≤ potential.start
        · simp only [ignite_step, Rng.genNat, if_pos hlen,
            Option.bind_eq_bind, Option.some_bind, hs, if_pos hps]
          unfold Rng.genRat
          rw [hdist, if_neg (lt_irrefl 0)]
          rfl
        · simp only [ignite_step, Rng.genNat, if_pos hlen,
            Option.bind_eq_bind, Option.some_bind, hs, if_neg hps]
          unfold Rng.genRat
          rw [if_pos (lt_of_not_le hps)]
          simp only [Option.some_bind]
          rw [hdist, if_neg (lt_irrefl 0)]
          rfl
      simp [ignite_random_synapses, hstep]

/-- Witness for C10: one ignition on the distance-4 synapse succeeds and
adds one impulse; igniting the empty brain aborts; igniting the
distance-zero synapse aborts. -/
theorem c10_ignite_witness :
    (∃ b' rng', ignite_random_synapses brainC10 1 ⟨1, 2⟩ rng0 =
        some (b', rng') ∧
      IgniteExtends ⟨1, 2⟩ brainC10 b' ∧
      totalImpulses b' = totalImpulses brainC10 + 1) ∧
    ignite_random_synapses brainEmpty 1 ⟨1, 2⟩ rng0 = none ∧
    ignite_random_synapses brainC10z 1 ⟨1, 2⟩ rng0 = none := by
  refine ⟨(c10_ignite_contract brainC10 1 ⟨1, 2⟩ rng0).1 (by simp [brainC10])
      ?_,
    (c10_ignite_contract brainEmpty 1 ⟨1, 2⟩ rng0).2.1 one_pos rfl,
    (c10_ignite_contract brainC10z 1 ⟨1, 2⟩ rng0).2.2 one_pos
      ⟨1, 2, 0, 1, [], 0⟩ (by rfl) rfl⟩
  intro s hs
  fin_cases hs
  norm_num

/-! ## Claim C4 — impulse invariant after `process` -/

/-- Claim C4 counterexample: `process(1)` succeeds, yet the impulse decayed
to potential −1 is still in flight — the filtering that discards
`potential ≤ 0` impulses runs only when `estimated_count > 0`, i.e. only
when some impulse on the same synapse reached `timeout ≤ 0` in that tick,
refuting "every impulse ... potential > 0 ... removed in that same tick
regardless of whether any other impulse on the same synapse arrived". -/
theorem c4_counterexample :
    Brain.process brainC4 1 rng0 = PResult.ok
      (⟨0, [⟨1, 0, p000, 0⟩, ⟨2, 0, p000, 0⟩],
        [⟨1, 2, 10, 1, [⟨-1, 9⟩], 0⟩], [], [], cfgC4, 0⟩, rng0) ∧
    ¬(0 < (-1 : ℚ)) := by
  constructor
  · norm_num [Brain.process, Brain.potentialSummationPhase,
      Brain.propagationPhase, Brain.inhibitionPhase, Brain.orphanPhase,
      Brain.effectorPhase, Brain.buddingPhase, propagateSynapse,
      triggeringOf, fireOnto, liveOutgoing, neuronsAfterSummation,
      Neuron.process_potential, Neuron.fire, Neuron.push_potential, brainC4,
      cfgC4, cfg0, List.filterMap, List.filter, List.enum, List.enumFrom,
      List.foldl, List.flatten, List.cons_ne_nil]
  · norm_num

/-! ### Phase-wise impulse-invariant lemmas for C4 -/

theorem fireTransform_bound {cfg : Config} {p : ℚ} {s : Synapse}
    (h : SynBound s) : SynBound (fireTransform cfg p s) := by
  intro imp hi
  unfold fireTransform at hi
  dsimp only at hi
  show imp.timeout ≤ s.distance
  split at hi
  · rcases List.mem_append.mp hi with h' | h'
    · exact h imp h'
    · rcases List.mem_singleton.mp h' with rfl
      exact le_refl _
  · exact h imp hi

theorem fireOnto_bound {cfg : Config} {syns : List Synapse} {idp : ℕ × ℚ}
    (h : ∀ s ∈ syns, SynBound s) :
    ∀ s' ∈ fireOnto cfg syns idp, SynBound s' := by
  intro s' hs'
  unfold fireOnto at hs'
  dsimp only at hs'
  split at hs'
  · rw [List.mem_map] at hs'
    obtain ⟨s, hs, rfl⟩ := hs'
    by_cases hl : liveOutgoing idp.1 s
    · rw [if_pos hl]
      exact fireTransform_bound (h s hs)
    · rw [if_neg hl]
      exact h s hs
  · exact h s' hs'

theorem foldl_fireOnto_bound {cfg : Config} {ts : List (ℕ × ℚ)}
    {syns : List Synapse} (h : ∀ s ∈ syns, SynBound s) :
    ∀ s' ∈ ts.foldl (fireOnto cfg) syns, SynBound s' := by
  induction ts generalizing syns with
  | nil => exact h
  | cons x ts ih =>
    rw [List.foldl_cons]
    exact ih (fireOnto_bound h)

theorem phaseA_bound {b : Brain} {dt : ℚ}
    (h : ∀ s ∈ b.synapses, SynBound s) :
    ∀ s ∈ (b.potentialSummationPhase dt).synapses, SynBound s := by
  unfold Brain.potentialSummationPhase
  exact foldl_fireOnto_bound h

theorem propagateSynapse_ok {dt s r d : ℚ} {syn : Synapse}
    (hs : 0 ≤ s) (hb : SynBound syn) :
    ∀ imp ∈ (propagateSynapse dt s r d syn).1.impulses,
      0 < imp.timeout ∧ imp.timeout ≤ (propagateSynapse dt s r d syn).1.distance := by
  intro imp hi
  have hmoved : ∀ imp0 ∈ syn.impulses.map (fun imp =>
      (⟨imp.potential - d, imp.timeout - s⟩ : Impulse)),
      imp0.timeout ≤ syn.distance := by
    intro imp0 h0
    rw [List.mem_map] at h0
    obtain ⟨imp1, h1, rfl⟩ := h0
    have := hb imp1 h1
    dsimp only
    linarith
  unfold propagateSynapse at hi ⊢
  dsimp only at hi ⊢
  split at hi
  · rw [List.mem_filterMap] at hi
    obtain ⟨imp0, h0, hf⟩ := hi
    by_cases hp : imp0.potential ≤ 0
    · rw [if_pos hp] at hf
      cases hf
    · rw [if_neg hp] at hf
      by_cases ht : imp0.timeout > 0
      · rw [if_pos ht] at hf
        injection hf with hf
        subst hf
        exact ⟨ht, hmoved imp0 h0⟩
      · rw [if_neg ht] at hf
        cases hf
  · rename_i hest
    have hall : ∀ imp0 ∈ syn.impulses.map (fun imp =>
        (⟨imp.potential - d, imp.timeout - s⟩ : Impulse)),
        ¬(imp0.timeout ≤ 0) := by
      intro imp0 h0 hle
      have hmem : imp0 ∈ (syn.impulses.map (fun imp =>
          (⟨imp.potential - d, imp.timeout - s⟩ : Impulse))).filter
          (fun imp => decide (imp.timeout ≤ 0)) :=
        List.mem_filter.mpr ⟨h0, by simpa using hle⟩
      rw [Nat.pos_iff_ne_zero, ne_eq, not_not] at hest
      rw [List.length_eq_zero] at hest
      rw [hest] at hmem
      cases hmem
    exact ⟨lt_of_not_le (fun hle => hall imp hi hle), hmoved imp hi⟩

theorem propagationPhase_ok {b : Brain} {dt : ℚ}
    (hs : 0 ≤ b.config.propagation_speed * dt)
    (hb : ∀ s ∈ b.synapses, SynBound s) :
    ImpulsesOk (b.propagationPhase dt) := by
  intro s' hs' imp hi
  unfold Brain.propagationPhase at hs'
  dsimp only at hs'
  rw [List.map_map, List.mem_map] at hs'
  obtain ⟨syn, hsyn, rfl⟩ := hs'
  exact propagateSynapse_ok hs (hb syn hsyn) imp hi

theorem listSwapRemove_subset {α : Type} {l : List α} {i : ℕ} :
    ∀ x ∈ listSwapRemove l i, x ∈ l := by
  intro x hx
  unfold listSwapRemove at hx
  cases hl : l.getLast? with
  | none =>
    rw [hl] at hx
    exact hx
  | some a =>
    rw [hl] at hx
    have hx' := List.dropLast_subset _ hx
    rcases List.mem_or_eq_of_mem_set hx' with h' | h'
    · exact h'
    · rw [h']
      exact List.mem_of_getLast?_eq_some hl

theorem foldl_swapRemove_subset {idxs : List ℕ} :
    ∀ {l : List Synapse}, ∀ x ∈ idxs.foldl listSwapRemove l, x ∈ l := by
  induction idxs with
  | nil => intro l x hx; exact hx
  | cons i idxs ih =>
    intro l x hx
    rw [List.foldl_cons] at hx
    exact listSwapRemove_subset _ (ih x hx)

theorem foldl_reconnectStep_fail {l : List (ℕ × ℕ)} {e : Err} :
    l.foldl reconnectStep (.fail e) = .fail e := by
  induction l with
  | nil => rfl
  | cons x l ih => rw [List.foldl_cons]; exact ih

theorem foldl_reconnectStep_panic {l : List (ℕ × ℕ)} :
    l.foldl reconnectStep .panic = .panic := by
  induction l with
  | nil => rfl
  | cons x l ih => rw [List.foldl_cons]; exact ih

theorem foldl_reconnectStep_ok {l : List (ℕ × ℕ)} :
    ∀ {br : Brain} {rng2 : Rng} {b1 : Brain} {rng1 : Rng},
    l.foldl reconnectStep (.ok (br, rng2)) = .ok (b1, rng1) →
    ImpulsesOk br → ImpulsesOk b1 := by
  induction l with
  | nil =>
    intro br rng2 b1 rng1 h hP
    injection h with h
    injection h with h1 h2
    rw [← h1]
    exact hP
  | cons x l ih =>
    intro br rng2 b1 rng1 h hP
    rw [List.foldl_cons] at h
    cases hb : Brain.bind_neurons br x.1 x.2 rng2 with
    | ok triple =>
      obtain ⟨o, br', rng3⟩ := triple
      rw [show reconnectStep (.ok (br, rng2)) x = .ok (br', rng3) by
        simp only [reconnectStep, hb]] at h
      refine ih h ?_
      intro s hs imp hi
      rcases (bind_neurons_ok_components hb).2.2.2 s hs with h' | h'
      · exact hP s h' imp hi
      · rw [h'] at hi
        cases hi
    | fail e =>
      rw [show reconnectStep (.ok (br, rng2)) x = .fail e by
        simp only [reconnectStep, hb]] at h
      rw [foldl_reconnectStep_fail] at h
      cases h
    | panic =>
      rw [show reconnectStep (.ok (br, rng2)) x = .panic by
        simp only [reconnectStep, hb]] at h
      rw [foldl_reconnectStep_panic] at h
      cases h

theorem inhibitionPhase_ok {b : Brain} {dt : ℚ} {rng : Rng} {b3 : Brain}
    {rng3 : Rng} (h : b.inhibitionPhase dt rng = .ok (b3, rng3))
    (hP : ImpulsesOk b) : ImpulsesOk b3 := by
  unfold Brain.inhibitionPhase at h
  split at h
  · refine foldl_reconnectStep_ok h ?_
    intro s hs imp hi
    dsimp only at hs
    have hs1 := foldl_swapRemove_subset s hs
    rw [List.mem_map] at hs1
    obtain ⟨s0, hs0, rfl⟩ := hs1
    exact hP s0 hs0 imp hi
  · injection h with h
    injection h with h1 h2
    rw [← h1]
    exact hP

theorem orphanStep_ok_synapses {br b2 : Brain} {i : ℕ}
    (h : orphanStep (.ok br) i = .ok b2) : b2.synapses = br.synapses := by
  simp only [orphanStep] at h
  split at h
  · cases h
  · split at h
    · cases h
    · split at h
      · cases h
      · split at h
        · cases h
        · injection h with h
          rw [← h]

theorem foldl_orphanStep_fail {l : List ℕ} {e : Err} :
    l.foldl orphanStep (.fail e) = .fail e := by
  induction l with
  | nil => rfl
  | cons x l ih => rw [List.foldl_cons]; exact ih

theorem foldl_orphanStep_panic {l : List ℕ} :
    l.foldl orphanStep .panic = .panic := by
  induction l with
  | nil => rfl
  | cons x l ih => rw [List.foldl_cons]; exact ih

theorem foldl_orphanStep_ok {l : List ℕ} :
    ∀ {br b4 : Brain}, l.foldl orphanStep (.ok br) = .ok b4 →
      b4.synapses = br.synapses := by
  induction l with
  | nil =>
    intro br b4 h
    injection h with h
    rw [← h]
  | cons i l ih =>
    intro br b4 h
    rw [List.foldl_cons] at h
    cases hstep : orphanStep (.ok br) i with
    | ok br2 =>
      rw [hstep] at h
      rw [ih h, orphanStep_ok_synapses hstep]
    | fail e =>
      rw [hstep, foldl_orphanStep_fail] at h
      cases h
    | panic =>
      rw [hstep, foldl_orphanStep_panic] at h
      cases h

theorem orphanPhase_ok {b3 b4 : Brain} (h : b3.orphanPhase = .ok b4)
    (hP : ImpulsesOk b3) : ImpulsesOk b4 := by
  unfold Brain.orphanPhase at h
  have heq := foldl_orphanStep_ok h
  intro s hs imp hi
  rw [heq] at hs
  exact hP s hs imp hi

theorem buddingStep_ok {br : Brain} {rng2 : Rng} {x : ℕ × ℕ × ℕ}
    {b2 : Brain} {rng3 : Rng}
    (h : buddingStep (.ok (br, rng2)) x = .ok (b2, rng3))
    (hP : ImpulsesOk br) : ImpulsesOk b2 := by
  cases hbind : Brain.bind_neurons br x.2.1 x.2.2 rng2 with
  | ok triple =>
    obtain ⟨o, br', rngx⟩ := triple
    have hP' : ImpulsesOk br' := by
      intro s hs imp hi
      rcases (bind_neurons_ok_components hbind).2.2.2 s hs with h' | h'
      · exact hP s h' imp hi
      · rw [h'] at hi
        cases hi
    cases o with
    | none =>
      simp only [buddingStep, hbind] at h
      obtain ⟨h1, h2⟩ := h
      exact hP'
    | some receptors =>
      simp only [buddingStep, hbind] at h
      cases hg : br'.synapses[x.1]? with
      | none =>
        rw [hg] at h
        cases h
      | some s0 =>
        rw [hg] at h
        injection h with h
        injection h with h1 h2
        rw [← h1]
        intro s hs imp hi
        rcases List.mem_or_eq_of_mem_set hs with h' | h'
        · exact hP' s h' imp hi
        · rw [h'] at hi ⊢
          have hs0 : s0 ∈ br'.synapses := List.mem_iff_getElem?.mpr ⟨x.1, hg⟩
          exact hP' s0 hs0 imp hi
  | fail e =>
    simp only [buddingStep, hbind] at h
    cases h
  | panic =>
    simp only [buddingStep, hbind] at h
    cases h

theorem foldl_buddingStep_fail {l : List (ℕ × ℕ × ℕ)} {e : Err} :
    l.foldl buddingStep (.fail e) = .fail e := by
  induction l with
  | nil => rfl
  | cons x l ih => rw [List.foldl_cons]; exact ih

theorem foldl_buddingStep_panic {l : List (ℕ × ℕ × ℕ)} :
    l.foldl buddingStep .panic = .panic := by
  induction l with
  | nil => rfl
  | cons x l ih => rw [List.foldl_cons]; exact ih

theorem foldl_buddingStep_ok {l : List (ℕ × ℕ × ℕ)} :
    ∀ {br : Brain} {rng2 : Rng} {b2 : Brain} {rng3 : Rng},
    l.foldl buddingStep (.ok (br, rng2)) = .ok (b2, rng3) →
    ImpulsesOk br → ImpulsesOk b2 := by
  induction l with
  | nil =>
    intro br rng2 b2 rng3 h hP
    injection h with h
    injection h with h1 h2
    rw [← h1]
    exact hP
  | cons x l ih =>
    intro br rng2 b2 rng3 h hP
    rw [List.foldl_cons] at h
    cases hstep : buddingStep (.ok (br, rng2)) x with
    | ok p =>
      obtain ⟨brm, rngm⟩ := p
      rw [hstep] at h
      exact ih h (buddingStep_ok hstep hP)
    | fail e =>
      rw [hstep, foldl_buddingStep_fail] at h
      cases h
    | panic =>
      rw [hstep, foldl_buddingStep_panic] at h
      cases h

theorem buddingPhase_impulses_ok {b : Brain} {rng : Rng} {b2 : Brain}
    {rng3 : Rng} (h : b.buddingPhase rng = .ok (b2, rng3))
    (hP : ImpulsesOk b) : ImpulsesOk b2 := by
  unfold Brain.buddingPhase at h
  cases hc : b.config.synapse_new_connection_receptors with
  | none =>
    rw [hc] at h
    injection h with h
    injection h with h1 h2
    rw [← h1]
    exact hP
  | some r =>
    rw [hc] at h
    exact foldl_buddingStep_ok h hP

/-- **C4** (amended): for every brain whose synapses all satisfy the
per-synapse bound `timeout ≤ distance` and all have an existing source
neuron, every `Δt > 0` and nonnegative `propagation_speed`, a successful
`process(Δt)` leaves every in-flight impulse with `0 < timeout ≤ distance`.
The claim's further condition `potential > 0` does NOT hold: decayed
impulses are only discarded on a synapse where some impulse arrived this
tick (see the counterexample). -/
theorem c4_process_impulse_invariant {b : Brain} {dt : ℚ} {rng : Rng}
    {b' : Brain} {rng' : Rng}
    (hdt : 0 < dt) (hsp : 0 ≤ b.config.propagation_speed)
    (hb : ∀ s ∈ b.synapses, SynBound s)
    (hwf : ∀ s ∈ b.synapses, ∃ n ∈ b.neurons, n.id = s.source)
    (h : Brain.process b dt rng = .ok (b', rng')) :
    ImpulsesOk b' := by
  unfold Brain.process at h
  by_cases hne : b.neurons = []
  · rw [if_pos hne] at h
    injection h with h
    injection h with h1 h2
    rw [← h1]
    intro s hs imp hi
    obtain ⟨n, hn, _⟩ := hwf s hs
    rw [hne] at hn
    cases hn
  · rw [if_neg hne] at h
    dsimp only at h
    have hA : ∀ s ∈ (b.potentialSummationPhase dt).synapses, SynBound s :=
      phaseA_bound hb
    have hs2 : (0:ℚ) ≤
        (b.potentialSummationPhase dt).config.propagation_speed * dt :=
      mul_nonneg hsp (le_of_lt hdt)
    have hP2 : ImpulsesOk ((b.potentialSummationPhase dt).propagationPhase dt) :=
      propagationPhase_ok hs2 hA
    cases hC : ((b.potentialSummationPhase dt).propagationPhase dt).inhibitionPhase dt rng with
    | ok p =>
      obtain ⟨b3, rng3⟩ := p
      simp only [hC] at h
      have hP3 : ImpulsesOk b3 := inhibitionPhase_ok hC hP2
      cases hD : b3.orphanPhase with
      | ok b4 =>
        simp only [hD] at h
        have hP4 : ImpulsesOk b4 := orphanPhase_ok hD hP3
        have hP5 : ImpulsesOk b4.effectorPhase := hP4
        exact buddingPhase_impulses_ok h hP5
      | fail e =>
        simp only [hD] at h
        cases h
      | panic =>
        simp only [hD] at h
        cases h
    | fail e =>
      simp only [hC] at h
      cases h
    | panic =>
      simp only [hC] at h
      cases h

/-- The C4 theorem instantiated on `brainC4` with `Δt = 1`: the hypotheses
hold concretely and `process` succeeds, so the surviving impulse `⟨-1, 9⟩`
satisfies the amended invariant. -/
theorem c4_process_impulse_invariant_witness :
    ∃ bf : Brain, ∃ rf : Rng,
      Brain.process brainC4 1 rng0 = PResult.ok (bf, rf) ∧ ImpulsesOk bf := by
  have hproc : Brain.process brainC4 1 rng0 = PResult.ok
      (⟨0, [⟨1, 0, p000, 0⟩, ⟨2, 0, p000, 0⟩],
        [⟨1, 2, 10, 1, [⟨-1, 9⟩], 0⟩], [], [], cfgC4, 0⟩, rng0) := by
    norm_num [Brain.process, Brain.potentialSummationPhase,
      Brain.propagationPhase, Brain.inhibitionPhase, Brain.orphanPhase,
      Brain.effectorPhase, Brain.buddingPhase, propagateSynapse,
      triggeringOf, fireOnto, liveOutgoing, neuronsAfterSummation,
      Neuron.process_potential, Neuron.fire, Neuron.push_potential, brainC4,
      cfgC4, cfg0, List.filterMap, List.filter, List.enum, List.enumFrom,
      List.foldl, List.flatten, List.cons_ne_nil]
  refine ⟨_, _, hproc, c4_process_impulse_invariant one_pos ?_ ?_ ?_ hproc⟩
  · norm_num [brainC4, cfgC4, cfg0]
  · intro s hs
    simp only [brainC4, List.mem_singleton] at hs
    subst hs
    intro imp hi
    simp only [List.mem_singleton] at hi
    subst hi
    norm_num
  · intro s hs
    simp only [brainC4, List.mem_singleton] at hs
    subst hs
    exact ⟨⟨1, 0, p000, 0⟩, by simp [brainC4], rfl⟩
